import Mathlib

/-!
# Verification of `samarec1812/validator`

A shallow embedding of `validator.go` and `errors.go`, followed by theorems
about the embedded functions.

Modelling conventions

* A Go `string` is a `GoString`, a list of Unicode code points; it stands for
  the UTF-8 encoding of that list, so `len(s)` is `byteLen s` (a number of
  bytes) and not the length of the list.  Go strings holding invalid UTF-8 are
  outside the model.  All separators and digits the program looks for are
  ASCII, so scanning code points and scanning bytes find the same positions.
* Go `int` and `int64` are 64 bits wide (`strconv.IntSize = 64`); values are
  `Int`, and the library parsers return only values inside the 64-bit range.
* An `error` is `Option GoError`, `none` being the nil error.
* `reflect` is modelled by its results: a struct is the list of its fields,
  each with its name, package path, `validate` tag value and typed value.
-/

namespace Validator

/-! ## Strings -/

/-- A Go string holding valid UTF-8, as its sequence of code points. -/
abbrev GoString := List Char

/-- The Go builtin `len(s)` on a string: the number of bytes of `s`. -/
def byteLen (s : GoString) : Nat := (s.map Char.utf8Size).sum

/-- Number of characters (code points) of a string,
`utf8.RuneCountInString` in Go; the program never calls it. -/
def runeCount (s : GoString) : Nat := s.length

/-- The predicate `unicode.IsSpace`: the code points with the Unicode
`White_Space` property. -/
def IsSpace (c : Char) : Bool :=
  let r := c.toNat
  (0x09 ≤ r && r ≤ 0x0d) || r == 0x20 || r == 0x85 || r == 0xa0 || r == 0x1680 ||
  (0x2000 ≤ r && r ≤ 0x200a) || r == 0x2028 || r == 0x2029 || r == 0x202f ||
  r == 0x205f || r == 0x3000

/-- The function `strings.TrimSpace`: drops leading and trailing white space. -/
def TrimSpace (s : GoString) : GoString :=
  ((s.dropWhile IsSpace).reverse.dropWhile IsSpace).reverse

/-- The function `strings.Split(s, sep)` for a separator `sep` of one ASCII
character (the program uses `";"`, `":"` and `","`): the pieces of `s` between
the occurrences of `sep`, `count + 1` of them. -/
def Split : GoString → Char → List GoString
  | [], _ => [[]]
  | c :: cs, sep =>
    if c = sep then [] :: Split cs sep
    else
      match Split cs sep with
      | [] => [[c]]
      | piece :: pieces => (c :: piece) :: pieces

/-- The generic `Contains` of `validator.go`. -/
def Contains {T : Type} [DecidableEq T] : List T → T → Bool
  | [], _ => false
  | v :: t, needle => if v = needle then true else Contains t needle

/-! ## `strconv` -/

/-- The two causes of a `*strconv.NumError`. -/
inductive NumError
  | ErrSyntax
  | ErrRange
  deriving DecidableEq, Repr

/-- The digit loop of `strconv.ParseUint(s, 10, 64)`, on `uint64` arithmetic;
`n` is the number read so far.  Every byte that is not a decimal digit ends
the loop with a syntax error (in base 10 a letter is a digit `≥ base`, and
`_` is only allowed in base 0). -/
def ParseUintLoop : GoString → Nat → Nat × Option NumError
  | [], n => (n, none)
  | c :: cs, n =>
    if 48 ≤ c.toNat ∧ c.toNat ≤ 57 then
      let d := c.toNat - 48
      if n ≥ (2 ^ 64 - 1) / 10 + 1 then (2 ^ 64 - 1, some NumError.ErrRange)
      else
        let n10 := (n * 10) % 2 ^ 64
        let n1 := (n10 + d) % 2 ^ 64
        if n1 < n10 ∨ n1 > 2 ^ 64 - 1 then (2 ^ 64 - 1, some NumError.ErrRange)
        else ParseUintLoop cs n1
    else (0, some NumError.ErrSyntax)

/-- The function `strconv.ParseUint(s, 10, 64)`. -/
def ParseUint (s : GoString) : Nat × Option NumError :=
  if s = [] then (0, some NumError.ErrSyntax) else ParseUintLoop s 0

/-- The function `strconv.ParseInt(s, 10, 64)`; `strconv.ParseInt(s, 10, 0)`
is the same function since `int` is 64 bits wide. -/
def ParseInt (s : GoString) : Int × Option NumError :=
  match s with
  | [] => (0, some NumError.ErrSyntax)
  | c :: cs =>
    let neg : Bool := c = '-'
    let s1 : GoString := if c = '+' then cs else if c = '-' then cs else c :: cs
    let (un, err) := ParseUint s1
    if err = some NumError.ErrSyntax then (0, err)
    else if !neg && un ≥ 2 ^ 63 then ((2 : Int) ^ 63 - 1, some NumError.ErrRange)
    else if neg && un > 2 ^ 63 then (-(2 : Int) ^ 63, some NumError.ErrRange)
    else if neg then (-(un : Int), none)
    else ((un : Int), none)

/-- The digit loop of the fast path of `strconv.Atoi`. -/
def AtoiFastLoop : GoString → Int → Int × Option NumError
  | [], n => (n, none)
  | ch :: s, n =>
    if ch.toNat < 48 ∨ ch.toNat - 48 > 9 then (0, some NumError.ErrSyntax)
    else AtoiFastLoop s (n * 10 + ((ch.toNat - 48 : Nat) : Int))

/-- The function `strconv.Atoi`: a fast path for strings of fewer than 19
bytes, `ParseInt(s, 10, 0)` for the others.  After the sign is taken off,
`len(s) < 1` holds exactly when no character is left. -/
def Atoi (s : GoString) : Int × Option NumError :=
  if 0 < byteLen s ∧ byteLen s < 19 then
    match s with
    | [] => (0, some NumError.ErrSyntax)
    | c :: cs =>
      let s1 : GoString := if c = '-' ∨ c = '+' then cs else c :: cs
      if (c = '-' ∨ c = '+') ∧ s1.length < 1 then (0, some NumError.ErrSyntax)
      else
        match AtoiFastLoop s1 0 with
        | (_, some e) => (0, some e)
        | (n, none) => if c = '-' then (-n, none) else (n, none)
  else ParseInt s

/-- Decimal rendering of an integer, the `%d` verb of `fmt`. -/
def formatInt (n : Int) : GoString := (toString n).toList

/-! ## Errors (`errors.go`) -/

/-- The error values of the program: the three sentinels of `errors.go`,
an error made by `fmt.Errorf` and the result of `errors.Join` on two errors. -/
inductive GoError
  | ErrNotStruct
  | ErrInvalidValidatorSyntax
  | ErrValidateForUnexportedFields
  | errorf (msg : GoString)
  | join (a b : GoError)
  deriving DecidableEq, Repr

/-- The method `Error()` of an error value. -/
def GoError.Error : GoError → GoString
  | .ErrNotStruct => "wrong argument given, should be a struct".toList
  | .ErrInvalidValidatorSyntax => "invalid validator syntax".toList
  | .ErrValidateForUnexportedFields =>
      "validation for unexported field is not allowed".toList
  | .errorf msg => msg
  | .join a b => a.Error ++ '\n' :: b.Error

/-- The struct `ValidationError`, holding a non-nil error. -/
structure ValidationError where
  Err : GoError
  deriving DecidableEq, Repr

/-- The slice type `ValidationErrors`. -/
abbrev ValidationErrors := List ValidationError

/-- The method `ValidationErrors.Error`. -/
def ValidationErrors.Error : ValidationErrors → GoString
  | [] => []
  | [e] => e.Err.Error
  | e :: es => (es.foldl (fun err x => GoError.join err x.Err) e.Err).Error

/-! ## Reflection -/

/-- The kinds of `reflect.Kind`. -/
inductive Kind
  | Invalid | Bool | Int | Int8 | Int16 | Int32 | Int64
  | Uint | Uint8 | Uint16 | Uint32 | Uint64 | Uintptr
  | Float32 | Float64 | Complex64 | Complex128
  | Array | Chan | Func | Interface | Map | Pointer | Slice | String | Struct
  | UnsafePointer
  deriving DecidableEq, Repr

/-- The type and current value of a struct field, by the result of
`field.Type.String()`: `"string"`, `"int"`, `"[]int"`, `"[]string"`, or any
other type, of which only the name is kept. -/
inductive FieldValue
  | string (s : GoString)
  | int (n : Int)
  | intSlice (l : List Int)
  | stringSlice (l : List GoString)
  | other (typeName : GoString)
  deriving DecidableEq, Repr

/-- A field of a struct as `reflect` presents it: `Name` and `PkgPath` of
`reflect.StructField`, the result of `Tag.Get("validate")`, and the value. -/
structure StructField where
  Name : GoString
  PkgPath : GoString
  validate : GoString
  Value : FieldValue
  deriving DecidableEq, Repr

/-- The method `reflect.StructField.IsExported`. -/
def StructField.IsExported (f : StructField) : Bool := f.PkgPath = []

/-- A value of type `any`: the nil interface, or a value of some kind; `fields`
lists the fields when the kind is `Struct` and is not looked at otherwise. -/
inductive GoAny
  | nil
  | value (k : Kind) (fields : List StructField)
  deriving DecidableEq, Repr

/-! ## The validator (`validator.go`) -/

/-- The function `ValidTag`. -/
def ValidTag (key value : GoString) : Option GoError :=
  if key = "len".toList then
    let (num, err) := Atoi value
    if err ≠ none then some GoError.ErrInvalidValidatorSyntax
    else if num < 0 then some GoError.ErrInvalidValidatorSyntax
    else none
  else if key = "in".toList then
    if value = [] then some GoError.ErrInvalidValidatorSyntax
    else if (Split value ',').length = 0 then some GoError.ErrInvalidValidatorSyntax
    else none
  else if key = "min".toList then
    if (Atoi value).2 ≠ none then some GoError.ErrInvalidValidatorSyntax else none
  else if key = "max".toList then
    if (Atoi value).2 ≠ none then some GoError.ErrInvalidValidatorSyntax else none
  else none

/-- The function `ValidString`. -/
def ValidString (value tag tagValue : GoString) : Option GoError :=
  if tag = "len".toList then
    let num := (Atoi tagValue).1
    if (byteLen value : Int) ≠ num then
      some (GoError.errorf "length does not matching".toList)
    else none
  else if tag = "in".toList then
    let values := Split tagValue ','
    if !Contains values value then
      some (GoError.errorf ("value - ".toList ++ value ++ " not contain in tag value".toList))
    else none
  else if tag = "min".toList then
    let num := (Atoi tagValue).1
    if (byteLen value : Int) < num then
      some (GoError.errorf "length less than required".toList)
    else none
  else if tag = "max".toList then
    let num := (Atoi tagValue).1
    if (byteLen value : Int) > num then
      some (GoError.errorf "length is longer than required".toList)
    else none
  else none

/-- The function `PerformToIntSlice`; `arr` is the slice built so far and
`none` is the error return. -/
def PerformToIntSliceLoop : List GoString → List Int → Option (List Int)
  | [], arr => some arr
  | val :: rest, arr =>
    let (num, err) := ParseInt val
    if err ≠ none then none else PerformToIntSliceLoop rest (arr ++ [num])

/-- The function `PerformToIntSlice`. -/
def PerformToIntSlice (tagValue : GoString) : Option (List Int) :=
  PerformToIntSliceLoop (Split tagValue ',') []

/-- The function `ValidInt`. -/
def ValidInt (value : Int) (tag tagValue : GoString) : Option GoError :=
  if tag = "in".toList then
    match PerformToIntSlice tagValue with
    | none => some GoError.ErrInvalidValidatorSyntax
    | some values =>
      if !Contains values value then
        some (GoError.errorf
          ("value - ".toList ++ formatInt value ++ " not contain in tag value".toList))
      else none
  else if tag = "min".toList then
    let num := (ParseInt tagValue).1
    if value < num then some (GoError.errorf "number less than required".toList) else none
  else if tag = "max".toList then
    let num := (ParseInt tagValue).1
    if value > num then some (GoError.errorf "number is greater than required".toList)
    else none
  else none

/-- The error `fmt.Errorf("error with field %s: %s", field.Name, err.Error())`. -/
def fieldError (name : GoString) (err : GoError) : GoError :=
  GoError.errorf ("error with field ".toList ++ name ++ ": ".toList ++ err.Error)

/-- The `[]int` loop of `ValidValue`: returns at the first failing element. -/
def ValidValueIntLoop (name : GoString) (tag tagValue : GoString) :
    List Int → Option GoError
  | [] => none
  | x :: xs =>
    match ValidInt x tag tagValue with
    | some err => some (fieldError name err)
    | none => ValidValueIntLoop name tag tagValue xs

/-- The `[]string` loop of `ValidValue`: returns at the first failing element. -/
def ValidValueStringLoop (name : GoString) (tag tagValue : GoString) :
    List GoString → Option GoError
  | [] => none
  | x :: xs =>
    match ValidString x tag tagValue with
    | some err => some (fieldError name err)
    | none => ValidValueStringLoop name tag tagValue xs

/-- The function `ValidValue`; `field` carries both the `reflect.StructField`
and the `reflect.Value` arguments. -/
def ValidValue (field : StructField) (tag tagValue : GoString) : Option GoError :=
  match field.Value with
  | .string s =>
    match ValidString s tag tagValue with
    | some err => some (fieldError field.Name err)
    | none => none
  | .int n =>
    match ValidInt n tag tagValue with
    | some err => some (fieldError field.Name err)
    | none => none
  | .intSlice l => ValidValueIntLoop field.Name tag tagValue l
  | .stringSlice l => ValidValueStringLoop field.Name tag tagValue l
  | .other _ => none

/-- The inner loop of `Validate` over the clauses `tagsValue` of one field;
`continue TODO` leaves the loop, dropping the clauses that remain. -/
def clauseLoop (field : StructField) :
    List GoString → ValidationErrors → ValidationErrors
  | [], errorsGroup => errorsGroup
  | val :: rest, errorsGroup =>
    match Split (TrimSpace val) ':' with
    | [key, arg] =>
      match ValidTag key arg with
      | some err => errorsGroup ++ [⟨err⟩]
      | none =>
        match ValidValue field key arg with
        | some err => clauseLoop field rest (errorsGroup ++ [⟨err⟩])
        | none => clauseLoop field rest errorsGroup
    | _ => errorsGroup ++ [⟨GoError.errorf ("error with field ".toList ++ field.Name)⟩]

/-- The outer loop of `Validate`, labelled `TODO`, over the fields. -/
def fieldLoop : List StructField → ValidationErrors → ValidationErrors
  | [], errorsGroup => errorsGroup
  | field :: rest, errorsGroup =>
    if !field.IsExported ∧ field.validate ≠ [] then
      fieldLoop rest (errorsGroup ++ [⟨GoError.ErrValidateForUnexportedFields⟩])
    else if field.validate = [] then fieldLoop rest errorsGroup
    else fieldLoop rest (clauseLoop field (Split field.validate ';') errorsGroup)

/-- What a call of `Validate` does: it panics, returns nil, returns a plain
error value, or returns a `ValidationErrors` collection. -/
inductive ValidateResult
  | panic
  | nil
  | err (e : GoError)
  | errs (v : ValidationErrors)
  deriving DecidableEq, Repr

/-- The function `Validate`.  For the nil interface `reflect.TypeOf(v)` is nil
and the call of `Kind()` on it panics. -/
def Validate (v : GoAny) : ValidateResult :=
  match v with
  | .nil => ValidateResult.panic
  | .value k fields =>
    if k = Kind.Struct then
      let errorsGroup := fieldLoop fields []
      if errorsGroup.length > 0 then ValidateResult.errs errorsGroup
      else ValidateResult.nil
    else ValidateResult.err GoError.ErrNotStruct

/-! ## The words of the specification -/

/-- A decimal digit `0`..`9`. -/
def isDigit (c : Char) : Bool := 48 ≤ c.toNat && c.toNat ≤ 57

/-- The number written by a string of decimal digits, read after `n`. -/
def digitsFrom (n : Nat) (s : GoString) : Nat :=
  s.foldl (fun m c => m * 10 + (c.toNat - 48)) n

/-- The natural number a non-empty string of decimal digits writes. -/
def decimalNat (s : GoString) : Option Nat :=
  if s ≠ [] ∧ s.all isDigit then some (digitsFrom 0 s) else none

/-- The integer a string writes in base 10: an optional sign `+` or `-`
followed by one or more decimal digits. -/
def parseBase10 (s : GoString) : Option Int :=
  match s with
  | [] => none
  | c :: cs =>
    if c = '-' then Option.map (fun m : Nat => -(m : Int)) (decimalNat cs)
    else if c = '+' then Option.map (fun m : Nat => (m : Int)) (decimalNat cs)
    else Option.map (fun m : Nat => (m : Int)) (decimalNat (c :: cs))

/-- A string parses as a base-10 integer when it writes one that fits the
64-bit `int` of the program. -/
def parsesAsInt (s : GoString) : Option Int :=
  match parseBase10 s with
  | some n => if -(2 : Int) ^ 63 ≤ n ∧ n < (2 : Int) ^ 63 then some n else none
  | none => none

/-- The messages `ms`, each preceded by a newline. -/
def tailLines : List GoString → GoString
  | [] => []
  | m :: ms => '\n' :: m ++ tailLines ms

/-- The concatenation of messages in order, separated by newlines. -/
def joinMessages : List GoString → GoString
  | [] => []
  | m :: ms => m ++ tailLines ms

/-- A syntactically valid clause: it splits into exactly two parts on `:` and
`ValidTag` accepts the pair. -/
def validClause (c : GoString) : Bool :=
  match Split (TrimSpace c) ':' with
  | [key, arg] => (ValidTag key arg).isNone
  | _ => false

/-- An exported slice field with one clause that either is syntax-invalid
(malformed, or rejected by `ValidTag`) or is violated by at least one element
of the slice. -/
def failingSliceField (f : StructField) : Bool :=
  f.IsExported && !(f.validate == []) &&
  match Split f.validate ';' with
  | [c] =>
    (match f.Value with
      | .intSlice _ => true
      | .stringSlice _ => true
      | _ => false) &&
    (match Split (TrimSpace c) ':' with
      | [key, arg] =>
        (ValidTag key arg).isSome ||
        (match f.Value with
          | .intSlice l => l.any (fun x => (ValidInt x key arg).isSome)
          | .stringSlice l => l.any (fun x => (ValidString x key arg).isSome)
          | _ => false)
      | _ => true)
  | _ => false

/-- The record of the test `wrong slice min` of `validator_test.go`. -/
def wrongSliceMin : List StructField :=
  [⟨"MinA".toList, [], "min:12".toList,
      FieldValue.stringSlice ["ef".toList, [], "adwadaaojwkdpoadd".toList]⟩,
   ⟨"MinB".toList, [], "min:-12".toList, FieldValue.intSlice [-22, 0, 24]⟩,
   ⟨"MinC".toList, [], "min:5".toList, FieldValue.intSlice [12, 3, 0]⟩,
   ⟨"MinD".toList, [], "min:-3".toList, FieldValue.intSlice [11, 0, 3, -90]⟩,
   ⟨"MinE".toList, [], "min:".toList, FieldValue.stringSlice []⟩]

/-- The record of the test `wrong slice max` of `validator_test.go`. -/
def wrongSliceMax : List StructField :=
  [⟨"MaxA".toList, [], "max:2".toList,
      FieldValue.stringSlice ["efgh".toList, "adw".toList, "a".toList]⟩,
   ⟨"MaxB".toList, [], "max:-7".toList,
      FieldValue.stringSlice ["ab".toList, "adwad".toList]⟩,
   ⟨"MaxC".toList, [], "max:-12".toList, FieldValue.intSlice [22, 0, 12]⟩,
   ⟨"MaxD".toList, [], "max:5".toList, FieldValue.intSlice [12, 2, 5]⟩,
   ⟨"MaxE".toList, [], "max:3".toList, FieldValue.intSlice [-9, 10, 0]⟩,
   ⟨"MaxF".toList, [], "max:2".toList,
      FieldValue.stringSlice ["ab".toList, "a".toList, "b".toList]⟩]

/-! ## Auxiliary definitions -/

/-- The number of errors in the collection a call of `Validate` returns. -/
def errorCount : ValidateResult → Nat
  | .errs v => v.length
  | _ => 0

/-- The part of `ParseInt` that follows the call of `ParseUint`: `neg` is the
sign found and `r` the result of `ParseUint`. -/
def signed (neg : Bool) (r : Nat × Option NumError) : Int × Option NumError :=
  if r.2 = some NumError.ErrSyntax then (0, r.2)
  else if !neg && r.1 ≥ 2 ^ 63 then ((2 : Int) ^ 63 - 1, some NumError.ErrRange)
  else if neg && r.1 > 2 ^ 63 then (-(2 : Int) ^ 63, some NumError.ErrRange)
  else if neg then (-(r.1 : Int), none)
  else ((r.1 : Int), none)

/-! ## Lemmas on `strconv` -/

theorem digitsFrom_cons (n : Nat) (c : Char) (s : GoString) :
    digitsFrom n (c :: s) = digitsFrom (n * 10 + (c.toNat - 48)) s := rfl

theorem digitsFrom_ge (s : GoString) : ∀ n, n ≤ digitsFrom n s := by
  induction s with
  | nil => intro n; exact Nat.le_refl _
  | cons c cs ih =>
    intro n
    rw [digitsFrom_cons]
    have := ih (n * 10 + (c.toNat - 48))
    omega

theorem digitsFrom_lt (s : GoString) (hs : s.all isDigit = true) :
    ∀ n, digitsFrom n s < (n + 1) * 10 ^ s.length := by
  induction s with
  | nil => intro n; simp [digitsFrom]
  | cons c cs ih =>
    intro n
    simp only [List.all_cons, Bool.and_eq_true] at hs
    have hc : 48 ≤ c.toNat ∧ c.toNat ≤ 57 := by
      have := hs.1
      simp only [isDigit, Bool.and_eq_true, decide_eq_true_eq] at this
      exact this
    rw [digitsFrom_cons]
    have h1 := ih hs.2 (n * 10 + (c.toNat - 48))
    have h2 : (n * 10 + (c.toNat - 48) + 1) * 10 ^ cs.length ≤
        ((n + 1) * 10) * 10 ^ cs.length :=
      Nat.mul_le_mul_right _ (by omega)
    have h3 : (n + 1) * 10 ^ (c :: cs).length = ((n + 1) * 10) * 10 ^ cs.length := by
      simp [pow_succ]; ring
    omega

theorem ParseUintLoop_digits (s : GoString) (hs : s.all isDigit = true) :
    ∀ n, n < 2 ^ 64 →
      ParseUintLoop s n =
        if digitsFrom n s < 2 ^ 64 then (digitsFrom n s, none)
        else (2 ^ 64 - 1, some NumError.ErrRange) := by
  induction s with
  | nil =>
    intro n hn
    have h0 : digitsFrom n [] = n := rfl
    rw [h0, if_pos hn]
    rfl
  | cons c cs ih =>
    intro n hn
    simp only [List.all_cons, Bool.and_eq_true] at hs
    have hc : 48 ≤ c.toNat ∧ c.toNat ≤ 57 := by
      have := hs.1
      simp only [isDigit, Bool.and_eq_true, decide_eq_true_eq] at this
      exact this
    have hge := digitsFrom_ge cs (n * 10 + (c.toNat - 48))
    rw [digitsFrom_cons]
    unfold ParseUintLoop
    rw [if_pos hc]
    by_cases hcut : n ≥ (2 ^ 64 - 1) / 10 + 1
    · rw [if_pos hcut, if_neg (by omega)]
    · rw [if_neg hcut]
      have h10 : (n * 10) % 2 ^ 64 = n * 10 := Nat.mod_eq_of_lt (by omega)
      simp only [h10]
      by_cases hov : n * 10 + (c.toNat - 48) < 2 ^ 64
      · have h1 : (n * 10 + (c.toNat - 48)) % 2 ^ 64 = n * 10 + (c.toNat - 48) :=
          Nat.mod_eq_of_lt hov
        simp only [h1]
        rw [if_neg (by omega)]
        exact ih hs.2 _ hov
      · have h1 : (n * 10 + (c.toNat - 48)) % 2 ^ 64 = n * 10 + (c.toNat - 48) - 2 ^ 64 := by
          rw [Nat.mod_eq_sub_mod (by omega)]
          exact Nat.mod_eq_of_lt (by omega)
        simp only [h1]
        rw [if_pos (by omega), if_neg (by omega)]

theorem ParseUintLoop_nondigit (s : GoString) (hs : s.all isDigit = false) :
    ∀ n, ParseUintLoop s n = (0, some NumError.ErrSyntax) ∨
      ParseUintLoop s n = (2 ^ 64 - 1, some NumError.ErrRange) := by
  induction s with
  | nil => simp at hs
  | cons c cs ih =>
    intro n
    unfold ParseUintLoop
    by_cases hc : 48 ≤ c.toNat ∧ c.toNat ≤ 57
    · have hcs : cs.all isDigit = false := by
        have hd : isDigit c = true := by simp [isDigit, hc]
        simpa [List.all_cons, hd] using hs
      rw [if_pos hc]
      dsimp only
      split
      · exact Or.inr rfl
      · split
        · exact Or.inr rfl
        · exact ih hcs _
    · rw [if_neg hc]; exact Or.inl rfl

theorem decimalNat_some {s : GoString} {v : Nat} (h : decimalNat s = some v) :
    s ≠ [] ∧ s.all isDigit = true ∧ v = digitsFrom 0 s := by
  unfold decimalNat at h
  split at h
  · rename_i hc
    exact ⟨hc.1, hc.2, (Option.some.inj h).symm⟩
  · exact absurd h (by simp)

theorem decimalNat_none {s : GoString} (h : decimalNat s = none) :
    s = [] ∨ s.all isDigit = false := by
  unfold decimalNat at h
  split at h
  · exact absurd h (by simp)
  · rename_i hc
    by_cases hs : s = []
    · exact Or.inl hs
    · right
      cases hall : s.all isDigit
      · rfl
      · exact absurd ⟨hs, hall⟩ hc

theorem ParseUint_some {s : GoString} {v : Nat} (h : decimalNat s = some v) :
    ParseUint s =
      if v < 2 ^ 64 then (v, none) else (2 ^ 64 - 1, some NumError.ErrRange) := by
  obtain ⟨hne, hall, hv⟩ := decimalNat_some h
  unfold ParseUint
  rw [if_neg hne, ParseUintLoop_digits s hall 0 (by omega), hv]

theorem ParseUint_none {s : GoString} (h : decimalNat s = none) :
    ParseUint s = (0, some NumError.ErrSyntax) ∨
      ParseUint s = (2 ^ 64 - 1, some NumError.ErrRange) := by
  unfold ParseUint
  rcases decimalNat_none h with hs | hs
  · rw [if_pos hs]; exact Or.inl rfl
  · have hne : s ≠ [] := by
      intro h0; rw [h0] at hs; simp at hs
    rw [if_neg hne]
    exact ParseUintLoop_nondigit s hs 0

theorem signed_err (neg : Bool) (r : Nat × Option NumError)
    (h : r = (0, some NumError.ErrSyntax) ∨ r = (2 ^ 64 - 1, some NumError.ErrRange)) :
    (signed neg r).2 ≠ none := by
  rcases h with h | h
  · subst h; simp [signed]
  · subst h
    cases neg <;> simp [signed]

theorem signed_pos_ok (v : Nat) :
    signed false (if v < 2 ^ 64 then (v, none) else (2 ^ 64 - 1, some NumError.ErrRange)) =
      if (v : Int) < 2 ^ 63 then ((v : Int), none)
      else ((2 : Int) ^ 63 - 1, some NumError.ErrRange) := by
  by_cases h64 : v < 2 ^ 64
  · rw [if_pos h64]
    by_cases h63 : v < 2 ^ 63
    · have : (v : Int) < 2 ^ 63 := by exact_mod_cast h63
      rw [if_pos this]
      simp [signed]
      omega
    · have : ¬ (v : Int) < 2 ^ 63 := by
        intro h; apply h63; exact_mod_cast h
      rw [if_neg this]
      simp [signed]
      omega
  · rw [if_neg h64]
    have : ¬ (v : Int) < 2 ^ 63 := by
      intro h
      have : v < 2 ^ 63 := by exact_mod_cast h
      omega
    rw [if_neg this]
    simp [signed]

theorem signed_neg_ok (v : Nat) :
    signed true (if v < 2 ^ 64 then (v, none) else (2 ^ 64 - 1, some NumError.ErrRange)) =
      if -(2 : Int) ^ 63 ≤ -(v : Int) then (-(v : Int), none)
      else (-(2 : Int) ^ 63, some NumError.ErrRange) := by
  by_cases h64 : v < 2 ^ 64
  · rw [if_pos h64]
    by_cases h63 : v ≤ 2 ^ 63
    · have : -(2 : Int) ^ 63 ≤ -(v : Int) := by
        have : (v : Int) ≤ 2 ^ 63 := by exact_mod_cast h63
        omega
      rw [if_pos this]
      simp [signed]
      omega
    · have : ¬ -(2 : Int) ^ 63 ≤ -(v : Int) := by
        intro h
        apply h63
        have : (v : Int) ≤ 2 ^ 63 := by omega
        exact_mod_cast this
      rw [if_neg this]
      simp [signed]
      omega
  · rw [if_neg h64]
    have : ¬ -(2 : Int) ^ 63 ≤ -(v : Int) := by
      intro h
      have : (v : Int) ≤ 2 ^ 63 := by omega
      have : v ≤ 2 ^ 63 := by exact_mod_cast this
      omega
    rw [if_neg this]
    simp [signed]

theorem ParseInt_eq_signed (c : Char) (cs : GoString) :
    ParseInt (c :: cs) =
      signed (decide (c = '-'))
        (ParseUint (if c = '+' then cs else if c = '-' then cs else c :: cs)) := rfl

/-- The result of `ParseInt`, by what the string writes. -/
theorem ParseInt_spec (s : GoString) :
    (∀ n, parsesAsInt s = some n → ParseInt s = (n, none)) ∧
    (parsesAsInt s = none → (ParseInt s).2 ≠ none) := by
  cases s with
  | nil => simp [parsesAsInt, parseBase10, ParseInt]
  | cons c cs =>
    rw [ParseInt_eq_signed]
    by_cases hm : c = '-'
    · have hp : c ≠ '+' := by rw [hm]; decide
      simp only [parsesAsInt, parseBase10, hm, if_true, if_neg, decide_True]
      rw [if_neg (by decide)]
      cases hd : decimalNat cs with
      | none =>
        simp only [Option.map_none']
        exact ⟨fun n h => absurd h (by simp), fun _ => signed_err _ _ (ParseUint_none hd)⟩
      | some v =>
        rw [ParseUint_some hd, signed_neg_ok]
        simp only [Option.map_some']
        have hlt : -(v : Int) < 2 ^ 63 := by
          have : (0 : Int) ≤ v := Int.ofNat_nonneg v
          omega
        by_cases hr : -(2 : Int) ^ 63 ≤ -(v : Int)
        · rw [if_pos hr, if_pos ⟨hr, hlt⟩]
          refine ⟨fun n h => ?_, fun h => absurd h (by simp)⟩
          rw [← Option.some.inj h]
        · rw [if_neg hr, if_neg (fun h => hr h.1)]
          exact ⟨fun n h => absurd h (by simp), fun _ => by simp⟩
    · have hdm : decide (c = '-') = false := by simp [hm]
      rw [hdm]
      have key : ∀ t : GoString,
          ((∀ n, (match Option.map (fun m : Nat => (m : Int)) (decimalNat t) with
              | some n => if -(2 : Int) ^ 63 ≤ n ∧ n < (2 : Int) ^ 63 then some n else none
              | none => none) = some n → signed false (ParseUint t) = (n, none)) ∧
           ((match Option.map (fun m : Nat => (m : Int)) (decimalNat t) with
              | some n => if -(2 : Int) ^ 63 ≤ n ∧ n < (2 : Int) ^ 63 then some n else none
              | none => none) = none → (signed false (ParseUint t)).2 ≠ none)) := by
        intro t
        cases hd : decimalNat t with
        | none =>
          simp only [Option.map_none']
          exact ⟨fun n h => absurd h (by simp), fun _ => signed_err _ _ (ParseUint_none hd)⟩
        | some v =>
          rw [ParseUint_some hd, signed_pos_ok]
          simp only [Option.map_some']
          have hge : -(2 : Int) ^ 63 ≤ (v : Int) := by
            have : (0 : Int) ≤ v := Int.ofNat_nonneg v
            omega
          by_cases hr : (v : Int) < 2 ^ 63
          · rw [if_pos hr, if_pos ⟨hge, hr⟩]
            refine ⟨fun n h => ?_, fun h => absurd h (by simp)⟩
            rw [← Option.some.inj h]
          · rw [if_neg hr, if_neg (fun h => hr h.2)]
            exact ⟨fun n h => absurd h (by simp), fun _ => by simp⟩
      by_cases hp : c = '+'
      · simp only [parsesAsInt, parseBase10, hm, hp, if_true, if_false]
        rw [if_neg (by decide)]
        exact key cs
      · simp only [parsesAsInt, parseBase10, hm, hp, if_false]
        exact key (c :: cs)

theorem length_le_byteLen (s : GoString) : s.length ≤ byteLen s := by
  induction s with
  | nil => simp [byteLen]
  | cons c cs ih =>
    have hc := Char.utf8Size_pos c
    simp only [byteLen, List.map_cons, List.sum_cons, List.length_cons] at ih ⊢
    omega

theorem AtoiFastLoop_digits (s : GoString) (hs : s.all isDigit = true) :
    ∀ m : Nat, AtoiFastLoop s (m : Int) = (((digitsFrom m s : Nat) : Int), none) := by
  induction s with
  | nil => intro m; rfl
  | cons c cs ih =>
    intro m
    simp only [List.all_cons, Bool.and_eq_true] at hs
    have hc : 48 ≤ c.toNat ∧ c.toNat ≤ 57 := by
      have := hs.1
      simp only [isDigit, Bool.and_eq_true, decide_eq_true_eq] at this
      exact this
    unfold AtoiFastLoop
    rw [if_neg (by omega), digitsFrom_cons]
    have hcast : (m : Int) * 10 + ((c.toNat - 48 : Nat) : Int) =
        ((m * 10 + (c.toNat - 48) : Nat) : Int) := by push_cast; ring
    rw [hcast]
    exact ih hs.2 _

theorem AtoiFastLoop_nondigit (s : GoString) (hs : s.all isDigit = false) :
    ∀ n : Int, AtoiFastLoop s n = (0, some NumError.ErrSyntax) := by
  induction s with
  | nil => simp at hs
  | cons c cs ih =>
    intro n
    unfold AtoiFastLoop
    by_cases hc : 48 ≤ c.toNat ∧ c.toNat ≤ 57
    · have hcs : cs.all isDigit = false := by
        have hd : isDigit c = true := by simp [isDigit, hc]
        simpa [List.all_cons, hd] using hs
      rw [if_neg (by omega)]
      exact ih hcs _
    · rw [if_pos (by omega)]

/-- The fast path of `Atoi` on the digits `t` that follow the sign. -/
theorem AtoiFast_spec (t : GoString) (ht : t.length ≤ 18) :
    (∀ v, decimalNat t = some v → v < 2 ^ 63 ∧ t ≠ [] ∧
        AtoiFastLoop t 0 = ((v : Int), none)) ∧
    (decimalNat t = none → t = [] ∨ AtoiFastLoop t 0 = (0, some NumError.ErrSyntax)) := by
  constructor
  · intro v hv
    obtain ⟨hne, hall, hval⟩ := decimalNat_some hv
    have hlt := digitsFrom_lt t hall 0
    have hpow : 10 ^ t.length ≤ 10 ^ 18 := Nat.pow_le_pow_right (by omega) ht
    refine ⟨?_, hne, ?_⟩
    · rw [hval]
      have : (10 : Nat) ^ 18 < 2 ^ 63 := by norm_num
      omega
    · rw [hval]
      exact AtoiFastLoop_digits t hall 0
  · intro hn
    rcases decimalNat_none hn with h | h
    · exact Or.inl h
    · exact Or.inr (AtoiFastLoop_nondigit t h 0)

/-- The fast path of `Atoi` after the sign: `t` holds the digits. -/
theorem AtoiFast_result (t : GoString) (ht : t.length ≤ 18) (neg : Prop) [Decidable neg] :
    (∀ v, decimalNat t = some v →
      (match AtoiFastLoop t 0 with
        | (_, some e) => ((0 : Int), some e)
        | (n, none) => if neg then (-n, none) else (n, none)) =
        (if neg then (-(v : Int), none) else ((v : Int), none))) ∧
    (decimalNat t = none → t ≠ [] →
      (match AtoiFastLoop t 0 with
        | (_, some e) => ((0 : Int), some e)
        | (n, none) => if neg then (-n, none) else (n, none)).2 ≠ none) := by
  obtain ⟨h1, h2⟩ := AtoiFast_spec t ht
  constructor
  · intro v hv
    obtain ⟨_, _, hloop⟩ := h1 v hv
    rw [hloop]
  · intro hn hne
    rcases h2 hn with h | h
    · exact absurd h hne
    · rw [h]
      simp

theorem parsesAsInt_neg (cs : GoString) :
    parsesAsInt ('-' :: cs) =
      match decimalNat cs with
      | some v => if (v : Int) ≤ 2 ^ 63 then some (-(v : Int)) else none
      | none => none := by
  simp only [parsesAsInt, parseBase10, if_true]
  cases decimalNat cs with
  | none => rfl
  | some v =>
    simp only [Option.map_some']
    have h0 : (0 : Int) ≤ v := Int.ofNat_nonneg v
    by_cases h : (v : Int) ≤ 2 ^ 63
    · rw [if_pos h, if_pos (by omega)]
    · rw [if_neg h, if_neg (by omega)]

theorem parsesAsInt_pos (cs : GoString) :
    parsesAsInt ('+' :: cs) =
      match decimalNat cs with
      | some v => if (v : Int) < 2 ^ 63 then some (v : Int) else none
      | none => none := by
  simp only [parsesAsInt, parseBase10, if_true]
  rw [if_neg (by decide)]
  cases decimalNat cs with
  | none => rfl
  | some v =>
    simp only [Option.map_some']
    have h0 : (0 : Int) ≤ v := Int.ofNat_nonneg v
    by_cases h : (v : Int) < 2 ^ 63
    · rw [if_pos h, if_pos (by omega)]
    · rw [if_neg h, if_neg (by omega)]

theorem parsesAsInt_nosign (c : Char) (cs : GoString) (hm : c ≠ '-') (hp : c ≠ '+') :
    parsesAsInt (c :: cs) =
      match decimalNat (c :: cs) with
      | some v => if (v : Int) < 2 ^ 63 then some (v : Int) else none
      | none => none := by
  simp only [parsesAsInt, parseBase10]
  rw [if_neg hm, if_neg hp]
  cases decimalNat (c :: cs) with
  | none => rfl
  | some v =>
    simp only [Option.map_some']
    have h0 : (0 : Int) ≤ v := Int.ofNat_nonneg v
    by_cases h : (v : Int) < 2 ^ 63
    · rw [if_pos h, if_pos (by omega)]
    · rw [if_neg h, if_neg (by omega)]

/-- The result of `Atoi`, by what the string writes. -/
theorem Atoi_spec (s : GoString) :
    (∀ n, parsesAsInt s = some n → Atoi s = (n, none)) ∧
    (parsesAsInt s = none → (Atoi s).2 ≠ none) := by
  unfold Atoi
  by_cases hfast : 0 < byteLen s ∧ byteLen s < 19
  · rw [if_pos hfast]
    cases s with
    | nil => simp [parsesAsInt, parseBase10]
    | cons c cs =>
      have hlen := length_le_byteLen (c :: cs)
      simp only [List.length_cons] at hlen
      dsimp only
      by_cases hm : c = '-'
      · subst hm
        rw [parsesAsInt_neg]
        have hs1 : (if ('-' = '-' ∨ '-' = '+') then cs else '-' :: cs) = cs :=
          if_pos (Or.inl rfl)
        rw [hs1]
        by_cases hcs : cs = []
        · subst hcs
          simp [decimalNat]
        · have hpos : ¬ (('-' = '-' ∨ '-' = '+') ∧ cs.length < 1) := by
            intro h
            exact hcs (List.length_eq_zero.mp (by omega))
          rw [if_neg hpos]
          obtain ⟨h1, h2⟩ := AtoiFast_result cs (by omega) ('-' = '-')
          cases hd : decimalNat cs with
          | none => exact ⟨fun n h => absurd h (by simp), fun _ => h2 hd hcs⟩
          | some v =>
            obtain ⟨hv, _, _⟩ := (AtoiFast_spec cs (by omega)).1 v hd
            have hv2 : (v : Int) ≤ 2 ^ 63 := by
              have : (v : Int) < 2 ^ 63 := by exact_mod_cast hv
              omega
            rw [h1 v hd]
            simp only [if_pos hv2, if_true]
            exact ⟨fun n h => by rw [← Option.some.inj h], fun h => absurd h (by simp)⟩
      · by_cases hp : c = '+'
        · subst hp
          rw [parsesAsInt_pos]
          have hs1 : (if ('+' = '-' ∨ '+' = '+') then cs else '+' :: cs) = cs :=
            if_pos (Or.inr rfl)
          rw [hs1]
          by_cases hcs : cs = []
          · subst hcs
            simp [decimalNat]
          · have hpos : ¬ (('+' = '-' ∨ '+' = '+') ∧ cs.length < 1) := by
              intro h
              exact hcs (List.length_eq_zero.mp (by omega))
            rw [if_neg hpos]
            obtain ⟨h1, h2⟩ := AtoiFast_result cs (by omega) ('+' = '-')
            cases hd : decimalNat cs with
            | none => exact ⟨fun n h => absurd h (by simp), fun _ => h2 hd hcs⟩
            | some v =>
              obtain ⟨hv, _, _⟩ := (AtoiFast_spec cs (by omega)).1 v hd
              have hv2 : (v : Int) < 2 ^ 63 := by exact_mod_cast hv
              rw [h1 v hd]
              simp only [if_pos hv2]
              rw [if_neg (by decide)]
              exact ⟨fun n h => by rw [← Option.some.inj h], fun h => absurd h (by simp)⟩
        · rw [parsesAsInt_nosign c cs hm hp]
          have hsign : ¬ (c = '-' ∨ c = '+') := fun h => h.elim hm hp
          have hs1 : (if (c = '-' ∨ c = '+') then cs else c :: cs) = c :: cs :=
            if_neg hsign
          rw [hs1]
          have hpos : ¬ ((c = '-' ∨ c = '+') ∧ (c :: cs).length < 1) := fun h => hsign h.1
          rw [if_neg hpos]
          have hl : (c :: cs).length ≤ 18 := by simp only [List.length_cons]; omega
          obtain ⟨h1, h2⟩ := AtoiFast_result (c :: cs) hl (c = '-')
          cases hd : decimalNat (c :: cs) with
          | none => exact ⟨fun n h => absurd h (by simp), fun _ => h2 hd (by simp)⟩
          | some v =>
            obtain ⟨hv, _, _⟩ := (AtoiFast_spec (c :: cs) hl).1 v hd
            have hv2 : (v : Int) < 2 ^ 63 := by exact_mod_cast hv
            rw [h1 v hd]
            simp only [if_pos hv2]
            rw [if_neg hm]
            exact ⟨fun n h => by rw [← Option.some.inj h], fun h => absurd h (by simp)⟩
  · rw [if_neg hfast]
    exact ParseInt_spec s

/-! ## Lemmas on the loops of `Validate` -/

theorem clauseLoop_acc (field : StructField) (clauses : List GoString) :
    ∀ acc : ValidationErrors,
      clauseLoop field clauses acc = acc ++ clauseLoop field clauses [] := by
  induction clauses with
  | nil => intro acc; simp [clauseLoop]
  | cons val rest ih =>
    intro acc
    unfold clauseLoop
    split
    · split
      · simp
      · split
        · rw [ih (acc ++ _), ih ([] ++ _)]
          simp
        · exact ih acc
    · simp

theorem fieldLoop_acc (fields : List StructField) :
    ∀ acc : ValidationErrors, fieldLoop fields acc = acc ++ fieldLoop fields [] := by
  induction fields with
  | nil => intro acc; simp [fieldLoop]
  | cons f rest ih =>
    intro acc
    unfold fieldLoop
    split
    · rw [ih (acc ++ _), ih ([] ++ _)]
      simp
    · split
      · exact ih acc
      · rw [ih (clauseLoop f _ acc), ih (clauseLoop f _ []), clauseLoop_acc f _ acc]
        simp

theorem fieldLoop_append (pre post : List StructField) :
    ∀ acc : ValidationErrors,
      fieldLoop (pre ++ post) acc = fieldLoop post (fieldLoop pre acc) := by
  induction pre with
  | nil => intro acc; rfl
  | cons f rest ih =>
    intro acc
    simp only [List.cons_append, fieldLoop]
    split
    · exact ih _
    · split
      · exact ih _
      · exact ih _

theorem fieldLoop_untagged (fields : List StructField)
    (h : ∀ f ∈ fields, f.validate = []) :
    ∀ acc : ValidationErrors, fieldLoop fields acc = acc := by
  induction fields with
  | nil => intro acc; rfl
  | cons f rest ih =>
    intro acc
    have hf : f.validate = [] := h f (List.mem_cons_self _ _)
    have hrest : ∀ g ∈ rest, g.validate = [] :=
      fun g hg => h g (List.mem_cons_of_mem _ hg)
    unfold fieldLoop
    rw [if_neg (fun hc => hc.2 hf), if_pos hf]
    exact ih hrest acc

theorem ValidValueIntLoop_eq (name tag tagValue : GoString) (l : List Int) :
    ValidValueIntLoop name tag tagValue l =
      (l.findSome? (fun x => ValidInt x tag tagValue)).map (fieldError name) := by
  induction l with
  | nil => rfl
  | cons x xs ih =>
    unfold ValidValueIntLoop
    rw [List.findSome?_cons]
    cases hx : ValidInt x tag tagValue with
    | none => simpa using ih
    | some err => simp

theorem ValidValueStringLoop_eq (name tag tagValue : GoString) (l : List GoString) :
    ValidValueStringLoop name tag tagValue l =
      (l.findSome? (fun x => ValidString x tag tagValue)).map (fieldError name) := by
  induction l with
  | nil => rfl
  | cons x xs ih =>
    unfold ValidValueStringLoop
    rw [List.findSome?_cons]
    cases hx : ValidString x tag tagValue with
    | none => simpa using ih
    | some err => simp

/-- One turn of the clause loop on a clause that splits into `key` and `arg`
and passes `ValidTag`. -/
theorem clauseLoop_valid (field : StructField) (val key arg : GoString)
    (rest : List GoString) (acc : ValidationErrors)
    (hsplit : Split (TrimSpace val) ':' = [key, arg]) (hvalid : ValidTag key arg = none) :
    clauseLoop field (val :: rest) acc =
      clauseLoop field rest
        (acc ++ ((ValidValue field key arg).map ValidationError.mk).toList) := by
  rw [clauseLoop, hsplit]
  simp only [hvalid]
  cases ValidValue field key arg with
  | none => simp
  | some err => simp

theorem findSome_toList_length {α β : Type} (f : α → Option β) (l : List α) :
    (l.findSome? f).toList.length = if l.any (fun x => (f x).isSome) then 1 else 0 := by
  induction l with
  | nil => rfl
  | cons x xs ih =>
    rw [List.findSome?_cons]
    cases hx : f x with
    | none => simpa [hx] using ih
    | some b => simp [hx]

/-- On an exported field with rule text the field loop runs the clause loop. -/
theorem fieldLoop_exported (field : StructField) (rest : List StructField)
    (acc : ValidationErrors) (hexp : field.IsExported = true)
    (htag : field.validate ≠ []) :
    fieldLoop (field :: rest) acc =
      fieldLoop rest (clauseLoop field (Split field.validate ';') acc) := by
  rw [fieldLoop, if_neg (by simp [hexp]), if_neg htag]

/-! ## The claims -/

/-- C1 (counterexample): the `[]int` field with values `[12, 3, 0]` tagged
`min:5` has two elements that violate the clause, and `Validate` returns one
error for it, not two. -/
theorem C1_counterexample :
    ValidTag "min".toList "5".toList = none ∧
    ([12, 3, 0].filter (fun x => (ValidInt x "min".toList "5".toList).isSome)).length = 2 ∧
    Validate (GoAny.value Kind.Struct
        [⟨"MinC".toList, [], "min:5".toList, FieldValue.intSlice [12, 3, 0]⟩]) =
      ValidateResult.errs
        [⟨fieldError "MinC".toList (GoError.errorf "number less than required".toList)⟩] ∧
    errorCount (Validate (GoAny.value Kind.Struct
        [⟨"MinC".toList, [], "min:5".toList, FieldValue.intSlice [12, 3, 0]⟩])) ≠
      ([12, 3, 0].filter (fun x => (ValidInt x "min".toList "5".toList).isSome)).length := by
  decide

/-- C1 (amended): when the clause loop reaches a clause `val` that splits into
`key` and `arg` and passes `ValidTag`, on a field of type `[]int` or `[]string`
it appends a single error, the one of the first failing element in sequence
order, when some element violates the clause, and nothing when none does; the
loop then goes on with the next clause.  So the clause contributes one error or
none, whatever the number of failing elements.  For an exported field with
rule text the field loop runs exactly this clause loop. -/
theorem C1_slice_clause_first_failure (field : StructField) (val key arg : GoString)
    (rest : List GoString) (acc : ValidationErrors)
    (hsplit : Split (TrimSpace val) ':' = [key, arg])
    (hvalid : ValidTag key arg = none) :
    (∀ l : List Int, field.Value = FieldValue.intSlice l →
      clauseLoop field (val :: rest) acc =
        clauseLoop field rest
          (acc ++ ((l.findSome? (fun x => ValidInt x key arg)).map
            (fun e => ValidationError.mk (fieldError field.Name e))).toList) ∧
      ((l.findSome? (fun x => ValidInt x key arg)).map
            (fun e => ValidationError.mk (fieldError field.Name e))).toList.length =
        if l.any (fun x => (ValidInt x key arg).isSome) then 1 else 0) ∧
    (∀ l : List GoString, field.Value = FieldValue.stringSlice l →
      clauseLoop field (val :: rest) acc =
        clauseLoop field rest
          (acc ++ ((l.findSome? (fun x => ValidString x key arg)).map
            (fun e => ValidationError.mk (fieldError field.Name e))).toList) ∧
      ((l.findSome? (fun x => ValidString x key arg)).map
            (fun e => ValidationError.mk (fieldError field.Name e))).toList.length =
        if l.any (fun x => (ValidString x key arg).isSome) then 1 else 0) ∧
    (field.IsExported = true → field.validate ≠ [] →
      ∀ (fields : List StructField) (acc0 : ValidationErrors),
        fieldLoop (field :: fields) acc0 =
          fieldLoop fields (clauseLoop field (Split field.validate ';') acc0)) := by
  refine ⟨fun l hl => ⟨?_, ?_⟩, fun l hl => ⟨?_, ?_⟩, fun hexp htag fields acc0 =>
    fieldLoop_exported field fields acc0 hexp htag⟩
  · rw [clauseLoop_valid field val key arg rest acc hsplit hvalid]
    simp only [ValidValue, hl, ValidValueIntLoop_eq, Option.map_map]
    rfl
  · have h := findSome_toList_length (fun x => ValidInt x key arg) l
    cases hf : l.findSome? (fun x => ValidInt x key arg) with
    | none => rw [hf] at h; simpa using h
    | some e => rw [hf] at h; simpa using h
  · rw [clauseLoop_valid field val key arg rest acc hsplit hvalid]
    simp only [ValidValue, hl, ValidValueStringLoop_eq, Option.map_map]
    rfl
  · have h := findSome_toList_length (fun x => ValidString x key arg) l
    cases hf : l.findSome? (fun x => ValidString x key arg) with
    | none => rw [hf] at h; simpa using h
    | some e => rw [hf] at h; simpa using h

/-- C1 (witness): the amended claim on the field `MinC []int` with values
`[12, 3, 0]` tagged `min:5`. -/
theorem C1_slice_clause_first_failure_witness :
    clauseLoop ⟨"MinC".toList, [], "min:5".toList, FieldValue.intSlice [12, 3, 0]⟩
        ["min:5".toList] [] =
      [⟨fieldError "MinC".toList (GoError.errorf "number less than required".toList)⟩] :=
  ((C1_slice_clause_first_failure
      ⟨"MinC".toList, [], "min:5".toList, FieldValue.intSlice [12, 3, 0]⟩
      "min:5".toList "min".toList "5".toList [] [] (by decide) (by decide)).1
    [12, 3, 0] rfl).1.trans (by decide)

/-- C2 (counterexample): the exported string field with value `"abc"` tagged
`"len:x;min:5"` yields one error, the syntax error of `len:x`; the clause
`min:5`, which `"abc"` violates when it stands alone, is never reached. -/
theorem C2_counterexample :
    Validate (GoAny.value Kind.Struct
        [⟨"Foo".toList, [], "len:x;min:5".toList, FieldValue.string "abc".toList⟩]) =
      ValidateResult.errs [⟨GoError.ErrInvalidValidatorSyntax⟩] ∧
    errorCount (Validate (GoAny.value Kind.Struct
        [⟨"Foo".toList, [], "len:x;min:5".toList, FieldValue.string "abc".toList⟩])) ≠ 2 ∧
    Validate (GoAny.value Kind.Struct
        [⟨"Foo".toList, [], "min:5".toList, FieldValue.string "abc".toList⟩]) =
      ValidateResult.errs
        [⟨fieldError "Foo".toList (GoError.errorf "length less than required".toList)⟩] := by
  decide

/-- C2 (amended): when a clause `val` is malformed (it does not split into
exactly two parts on `:`) or its argument is rejected by `ValidTag`, the clause
loop appends one error for that clause and ends: the clauses `rest` that follow
it in the same field are neither checked nor evaluated, whatever clauses `pre`
come before it, and the field loop goes on with the next field. -/
theorem C2_bad_clause_ends_field (field : StructField) (val : GoString)
    (rest : List GoString) (acc : ValidationErrors) :
    ((Split (TrimSpace val) ':').length ≠ 2 →
      clauseLoop field (val :: rest) acc =
        acc ++ [⟨GoError.errorf ("error with field ".toList ++ field.Name)⟩]) ∧
    (∀ key arg err, Split (TrimSpace val) ':' = [key, arg] →
      ValidTag key arg = some err →
      clauseLoop field (val :: rest) acc = acc ++ [⟨err⟩]) ∧
    (∀ (pre : List GoString),
      ((Split (TrimSpace val) ':').length ≠ 2 ∨
        ∃ key arg err, Split (TrimSpace val) ':' = [key, arg] ∧
          ValidTag key arg = some err) →
      clauseLoop field (pre ++ val :: rest) acc = clauseLoop field (pre ++ [val]) acc) ∧
    (field.IsExported = true → field.validate ≠ [] →
      ∀ (fields : List StructField) (acc0 : ValidationErrors),
        fieldLoop (field :: fields) acc0 =
          fieldLoop fields (clauseLoop field (Split field.validate ';') acc0)) := by
  have hmal : ∀ (r : List GoString) (a : ValidationErrors),
      (Split (TrimSpace val) ':').length ≠ 2 →
      clauseLoop field (val :: r) a =
        a ++ [⟨GoError.errorf ("error with field ".toList ++ field.Name)⟩] := by
    intro r a h
    rw [clauseLoop]
    split
    · rename_i key arg heq
      rw [heq] at h
      exact absurd rfl h
    · rfl
  have hrej : ∀ (r : List GoString) (a : ValidationErrors) key arg err,
      Split (TrimSpace val) ':' = [key, arg] → ValidTag key arg = some err →
      clauseLoop field (val :: r) a = a ++ [⟨err⟩] := by
    intro r a key arg err hs hv
    rw [clauseLoop, hs]
    simp only [hv]
  refine ⟨hmal rest acc, hrej rest acc, ?_, fun hexp htag fields acc0 =>
    fieldLoop_exported field fields acc0 hexp htag⟩
  intro pre hbad
  have hend : ∀ a, clauseLoop field (val :: rest) a = clauseLoop field [val] a := by
    intro a
    rcases hbad with h | ⟨key, arg, err, hs, hv⟩
    · rw [hmal rest a h, hmal [] a h]
    · rw [hrej rest a key arg err hs hv, hrej [] a key arg err hs hv]
  clear hmal hrej hbad
  induction pre generalizing acc with
  | nil => exact hend acc
  | cons p ps ih =>
    simp only [List.cons_append, clauseLoop]
    split
    · split
      · rfl
      · split
        · exact ih _
        · exact ih _
    · rfl

/-- C2 (witness): the amended claim on the clauses of `"len:x;min:5"`. -/
theorem C2_bad_clause_ends_field_witness :
    clauseLoop ⟨"Foo".toList, [], "len:x;min:5".toList, FieldValue.string "abc".toList⟩
        ["len:x".toList, "min:5".toList] [] =
      [⟨GoError.ErrInvalidValidatorSyntax⟩] :=
  (C2_bad_clause_ends_field
      ⟨"Foo".toList, [], "len:x;min:5".toList, FieldValue.string "abc".toList⟩
      "len:x".toList ["min:5".toList] []).2.1
    "len".toList "x".toList GoError.ErrInvalidValidatorSyntax (by decide) (by decide)

/-- C3: for a value of any kind other than `Struct` (a string, a map, a
pointer such as `new(any)`, a typed nil pointer) `Validate` returns exactly
`ErrNotStruct`, whatever the rest of the value; for the nil interface value
`Validate(nil)` it panics instead of returning `ErrNotStruct`. -/
theorem C3_not_struct_and_nil :
    (∀ (k : Kind) (fields : List StructField), k ≠ Kind.Struct →
      Validate (GoAny.value k fields) = ValidateResult.err GoError.ErrNotStruct) ∧
    Validate GoAny.nil = ValidateResult.panic ∧
    Validate GoAny.nil ≠ ValidateResult.err GoError.ErrNotStruct := by
  refine ⟨fun k fields hk => ?_, rfl, by decide⟩
  simp [Validate, hk]

/-- C3 (witness): a string, a map and a pointer are answered by `ErrNotStruct`. -/
theorem C3_not_struct_and_nil_witness :
    Validate (GoAny.value Kind.String []) = ValidateResult.err GoError.ErrNotStruct ∧
    Validate (GoAny.value Kind.Map []) = ValidateResult.err GoError.ErrNotStruct ∧
    Validate (GoAny.value Kind.Pointer []) = ValidateResult.err GoError.ErrNotStruct :=
  ⟨C3_not_struct_and_nil.1 Kind.String [] (by decide),
   C3_not_struct_and_nil.1 Kind.Map [] (by decide),
   C3_not_struct_and_nil.1 Kind.Pointer [] (by decide)⟩

/-- C4: a field that is not exported and carries a non-empty `validate` tag
makes the field loop append exactly one `ErrValidateForUnexportedFields` and go
on with the next field, whatever the tag text, the type and the value: the
errors of a struct are those of the fields before it, this one error, and those
of the fields after it.  A struct whose only tagged field is such a field
returns the collection holding this one error, whose `Error()` is
`ErrValidateForUnexportedFields.Error()`. -/
theorem C4_unexported_tagged_field (f : StructField)
    (hunexp : f.IsExported = false) (htag : f.validate ≠ []) :
    (∀ (rest : List StructField) (acc : ValidationErrors),
      fieldLoop (f :: rest) acc =
        fieldLoop rest (acc ++ [⟨GoError.ErrValidateForUnexportedFields⟩])) ∧
    (∀ pre post : List StructField,
      fieldLoop (pre ++ f :: post) [] =
        fieldLoop pre [] ++ [⟨GoError.ErrValidateForUnexportedFields⟩] ++
          fieldLoop post []) ∧
    (∀ pre post : List StructField,
      (∀ g ∈ pre, g.validate = []) → (∀ g ∈ post, g.validate = []) →
      Validate (GoAny.value Kind.Struct (pre ++ f :: post)) =
        ValidateResult.errs [⟨GoError.ErrValidateForUnexportedFields⟩] ∧
      ValidationErrors.Error [⟨GoError.ErrValidateForUnexportedFields⟩] =
        GoError.ErrValidateForUnexportedFields.Error) := by
  have h1 : ∀ (rest : List StructField) (acc : ValidationErrors),
      fieldLoop (f :: rest) acc =
        fieldLoop rest (acc ++ [⟨GoError.ErrValidateForUnexportedFields⟩]) := by
    intro rest acc
    rw [fieldLoop, if_pos ⟨by simp [hunexp], htag⟩]
  have h2 : ∀ pre post : List StructField,
      fieldLoop (pre ++ f :: post) [] =
        fieldLoop pre [] ++ [⟨GoError.ErrValidateForUnexportedFields⟩] ++
          fieldLoop post [] := by
    intro pre post
    rw [fieldLoop_append, h1, fieldLoop_acc post]
  refine ⟨h1, h2, fun pre post hpre hpost => ⟨?_, rfl⟩⟩
  have h3 := h2 pre post
  rw [fieldLoop_untagged pre hpre, fieldLoop_untagged post hpost] at h3
  simp only [Validate, if_true, h3]
  rfl

/-- C4 (witness): the struct of the tests with the fields
`foo []string` tagged `len:10` and `bar []int` without tag. -/
theorem C4_unexported_tagged_field_witness :
    Validate (GoAny.value Kind.Struct
        ([] ++ ⟨"foo".toList, "validator".toList, "len:10".toList,
            FieldValue.stringSlice []⟩ ::
          [⟨"bar".toList, "validator".toList, [], FieldValue.intSlice []⟩])) =
        ValidateResult.errs [⟨GoError.ErrValidateForUnexportedFields⟩] ∧
      ValidationErrors.Error [⟨GoError.ErrValidateForUnexportedFields⟩] =
        GoError.ErrValidateForUnexportedFields.Error :=
  (C4_unexported_tagged_field
      ⟨"foo".toList, "validator".toList, "len:10".toList, FieldValue.stringSlice []⟩
      (by decide) (by decide)).2.2 []
    [⟨"bar".toList, "validator".toList, [], FieldValue.intSlice []⟩]
    (by decide) (by decide)

/-- C5: for a struct with zero fields, and for a struct all of whose fields
(exported or not, of any type) have an empty `validate` tag, `Validate` returns
nil, not an error collection. -/
theorem C5_untagged_struct_succeeds :
    Validate (GoAny.value Kind.Struct []) = ValidateResult.nil ∧
    (∀ fields : List StructField, (∀ f ∈ fields, f.validate = []) →
      Validate (GoAny.value Kind.Struct fields) = ValidateResult.nil) := by
  refine ⟨rfl, fun fields h => ?_⟩
  simp [Validate, fieldLoop_untagged fields h]

/-- C5 (witness): the struct of the tests with the untagged fields
`f1 string` and `f2 []string`. -/
theorem C5_untagged_struct_succeeds_witness :
    Validate (GoAny.value Kind.Struct
        [⟨"f1".toList, "validator".toList, [], FieldValue.string []⟩,
         ⟨"f2".toList, "validator".toList, [], FieldValue.stringSlice []⟩]) =
      ValidateResult.nil :=
  C5_untagged_struct_succeeds.2 _ (by decide)

/-! ### The syntax checks of `ValidTag` -/

theorem ValidTag_len (a : GoString) :
    ValidTag "len".toList a =
      match parsesAsInt a with
      | some n => if n < 0 then some GoError.ErrInvalidValidatorSyntax else none
      | none => some GoError.ErrInvalidValidatorSyntax := by
  obtain ⟨h1, h2⟩ := Atoi_spec a
  unfold ValidTag
  rw [if_pos rfl]
  cases hp : parsesAsInt a with
  | none =>
    have hne := h2 hp
    cases hA : Atoi a with
    | mk num err =>
      rw [hA] at hne
      simp only
      rw [if_pos hne]
  | some n =>
    rw [h1 n hp]
    simp

theorem ValidTag_min (a : GoString) :
    ValidTag "min".toList a =
      match parsesAsInt a with
      | some _ => none
      | none => some GoError.ErrInvalidValidatorSyntax := by
  obtain ⟨h1, h2⟩ := Atoi_spec a
  unfold ValidTag
  rw [if_neg (by decide), if_neg (by decide), if_pos rfl]
  cases hp : parsesAsInt a with
  | none => simp only; rw [if_pos (h2 hp)]
  | some n => rw [h1 n hp]; simp

theorem ValidTag_max (a : GoString) :
    ValidTag "max".toList a =
      match parsesAsInt a with
      | some _ => none
      | none => some GoError.ErrInvalidValidatorSyntax := by
  obtain ⟨h1, h2⟩ := Atoi_spec a
  unfold ValidTag
  rw [if_neg (by decide), if_neg (by decide), if_neg (by decide), if_pos rfl]
  cases hp : parsesAsInt a with
  | none => simp only; rw [if_pos (h2 hp)]
  | some n => rw [h1 n hp]; simp

theorem Split_length_pos (s : GoString) (sep : Char) : 0 < (Split s sep).length := by
  induction s with
  | nil => simp [Split]
  | cons c cs ih =>
    unfold Split
    split
    · simp
    · split
      · simp
      · simp

/-- One turn of the clause loop on a clause that `ValidTag` rejects. -/
theorem clauseLoop_rejected (field : StructField) (val key arg : GoString)
    (rest : List GoString) (acc : ValidationErrors) (err : GoError)
    (hsplit : Split (TrimSpace val) ':' = [key, arg])
    (hrej : ValidTag key arg = some err) :
    clauseLoop field (val :: rest) acc = acc ++ [⟨err⟩] := by
  rw [clauseLoop, hsplit]
  simp only [hrej]

/-- C6: `ValidTag("len", a)` returns nil if and only if `a` parses as a
base-10 integer (of the 64-bit `int`) that is `≥ 0`, and returns
`ErrInvalidValidatorSyntax` otherwise; `"%12"`, `"abcdef"` and `"-6"` are
rejected; a clause `len:a` with a rejected `a` makes the clause loop of
`Validate` append `ErrInvalidValidatorSyntax` alone, for a field of any type
and value, so no length error is made for it.  The largest accepted argument
is `9223372036854775807`, the largest `int`. -/
theorem C6_len_argument :
    (∀ a : GoString,
      (ValidTag "len".toList a = none ↔ ∃ n : Int, parsesAsInt a = some n ∧ 0 ≤ n) ∧
      (ValidTag "len".toList a ≠ none →
        ValidTag "len".toList a = some GoError.ErrInvalidValidatorSyntax) ∧
      (∀ (field : StructField) (val : GoString) (rest : List GoString)
          (acc : ValidationErrors),
        Split (TrimSpace val) ':' = ["len".toList, a] →
        ValidTag "len".toList a ≠ none →
        clauseLoop field (val :: rest) acc =
          acc ++ [⟨GoError.ErrInvalidValidatorSyntax⟩])) ∧
    ValidTag "len".toList "%12".toList = some GoError.ErrInvalidValidatorSyntax ∧
    ValidTag "len".toList "abcdef".toList = some GoError.ErrInvalidValidatorSyntax ∧
    ValidTag "len".toList "-6".toList = some GoError.ErrInvalidValidatorSyntax ∧
    ValidTag "len".toList "9223372036854775807".toList = none ∧
    ValidTag "len".toList "9223372036854775808".toList =
      some GoError.ErrInvalidValidatorSyntax := by
  refine ⟨fun a => ?_, by decide, by decide, by decide, by decide, by decide⟩
  have hrej : ValidTag "len".toList a ≠ none →
      ValidTag "len".toList a = some GoError.ErrInvalidValidatorSyntax := by
    rw [ValidTag_len]
    cases parsesAsInt a with
    | none => intro _; rfl
    | some n =>
      simp only
      split
      · intro _; rfl
      · intro h; exact absurd rfl h
  refine ⟨?_, hrej, fun field val rest acc hs hne =>
    clauseLoop_rejected field val _ a rest acc _ hs (hrej hne)⟩
  rw [ValidTag_len]
  cases parsesAsInt a with
  | none => simp
  | some n =>
    simp only
    constructor
    · intro h
      refine ⟨n, rfl, ?_⟩
      by_contra hn
      rw [if_pos (by omega)] at h
      exact absurd h (by simp)
    · rintro ⟨m, hm, hm0⟩
      have : n = m := Option.some.inj hm
      rw [if_neg (by omega)]

/-- C6 (witness): the clause `len:%12` on the string field `BadSpec` of the
tests. -/
theorem C6_len_argument_witness :
    clauseLoop ⟨"BadSpec".toList, [], "len:%12".toList, FieldValue.string "abc".toList⟩
        ["len:%12".toList] [] =
      [] ++ [⟨GoError.ErrInvalidValidatorSyntax⟩] :=
  (C6_len_argument.1 "%12".toList).2.2
    ⟨"BadSpec".toList, [], "len:%12".toList, FieldValue.string "abc".toList⟩
    "len:%12".toList [] [] (by decide) (by decide)

/-- C7: for the keys `min` and `max`, `ValidTag(key, a)` returns nil if and
only if `a` parses as a base-10 integer with an optional sign (of the 64-bit
`int`, negative values accepted), and returns `ErrInvalidValidatorSyntax`
otherwise; `"5-"` and the empty string are rejected, `"-10"` is accepted.
The accepted arguments range from `-9223372036854775808` to
`9223372036854775807`, the values of `int`. -/
theorem C7_min_max_argument :
    (∀ (key a : GoString), key = "min".toList ∨ key = "max".toList →
      (ValidTag key a = none ↔ ∃ n : Int, parsesAsInt a = some n) ∧
      (ValidTag key a ≠ none → ValidTag key a = some GoError.ErrInvalidValidatorSyntax)) ∧
    ValidTag "min".toList "5-".toList = some GoError.ErrInvalidValidatorSyntax ∧
    ValidTag "max".toList "5-".toList = some GoError.ErrInvalidValidatorSyntax ∧
    ValidTag "min".toList [] = some GoError.ErrInvalidValidatorSyntax ∧
    ValidTag "max".toList [] = some GoError.ErrInvalidValidatorSyntax ∧
    ValidTag "min".toList "-10".toList = none ∧
    ValidTag "max".toList "-10".toList = none ∧
    parsesAsInt "-10".toList = some (-10) ∧
    ValidTag "min".toList "-9223372036854775808".toList = none ∧
    ValidTag "min".toList "-9223372036854775809".toList =
      some GoError.ErrInvalidValidatorSyntax ∧
    ValidTag "max".toList "9223372036854775807".toList = none ∧
    ValidTag "max".toList "9223372036854775808".toList =
      some GoError.ErrInvalidValidatorSyntax := by
  refine ⟨fun key a hkey => ?_, by decide, by decide, by decide, by decide, by decide,
    by decide, by decide, by decide, by decide, by decide, by decide⟩
  have hform : ValidTag key a =
      match parsesAsInt a with
      | some _ => none
      | none => some GoError.ErrInvalidValidatorSyntax := by
    rcases hkey with h | h
    · rw [h]; exact ValidTag_min a
    · rw [h]; exact ValidTag_max a
  rw [hform]
  cases parsesAsInt a with
  | none => simp
  | some n => simp

/-- C7 (witness): the argument `-12` of the tests under the key `min`. -/
theorem C7_min_max_argument_witness :
    (ValidTag "min".toList "-12".toList = none ↔
        ∃ n : Int, parsesAsInt "-12".toList = some n) ∧
      (ValidTag "min".toList "-12".toList ≠ none →
        ValidTag "min".toList "-12".toList = some GoError.ErrInvalidValidatorSyntax) :=
  C7_min_max_argument.1 "min".toList "-12".toList (Or.inl rfl)

/-- C8: `ValidTag("in", a)` returns nil if and only if `a` is not empty, and
`ErrInvalidValidatorSyntax` for the empty `a`; the second check of the branch
never fires, since `strings.Split` always yields at least one piece. -/
theorem C8_in_argument (a : GoString) :
    (ValidTag "in".toList a = none ↔ a ≠ []) ∧
    (ValidTag "in".toList a ≠ none →
      ValidTag "in".toList a = some GoError.ErrInvalidValidatorSyntax) ∧
    (Split a ',').length ≠ 0 ∧
    (∀ (s : GoString) (sep : Char), (Split s sep).length ≠ 0) := by
  have hsp : ∀ (s : GoString) (sep : Char), (Split s sep).length ≠ 0 :=
    fun s sep => Nat.pos_iff_ne_zero.mp (Split_length_pos s sep)
  have hform : ValidTag "in".toList a =
      if a = [] then some GoError.ErrInvalidValidatorSyntax else none := by
    unfold ValidTag
    rw [if_neg (by decide), if_pos rfl, if_neg (hsp a ',')]
  refine ⟨?_, ?_, hsp a ',', hsp⟩
  · rw [hform]
    by_cases h : a = []
    · simp [h]
    · simp [h]
  · rw [hform]
    by_cases h : a = []
    · simp [h]
    · simp [h]

/-- C9: for a predicate name outside `len`, `in`, `min`, `max` and any
argument, `ValidTag` returns nil, `ValidString` returns nil for every string,
`ValidInt` returns nil for every integer and `ValidValue` returns nil for every
field; a clause that splits into such a name and an argument adds no error and
the clause loop goes on with the next clause. -/
theorem C9_unrecognized_predicate (key arg : GoString)
    (hlen : key ≠ "len".toList) (hin : key ≠ "in".toList)
    (hmin : key ≠ "min".toList) (hmax : key ≠ "max".toList) :
    ValidTag key arg = none ∧
    (∀ value : GoString, ValidString value key arg = none) ∧
    (∀ value : Int, ValidInt value key arg = none) ∧
    (∀ field : StructField, ValidValue field key arg = none) ∧
    (∀ (field : StructField) (val : GoString) (rest : List GoString)
        (acc : ValidationErrors),
      Split (TrimSpace val) ':' = [key, arg] →
      clauseLoop field (val :: rest) acc = clauseLoop field rest acc) := by
  have hT : ValidTag key arg = none := by
    unfold ValidTag
    rw [if_neg hlen, if_neg hin, if_neg hmin, if_neg hmax]
  have hS : ∀ value : GoString, ValidString value key arg = none := by
    intro value
    unfold ValidString
    rw [if_neg hlen, if_neg hin, if_neg hmin, if_neg hmax]
  have hI : ∀ value : Int, ValidInt value key arg = none := by
    intro value
    unfold ValidInt
    rw [if_neg hin, if_neg hmin, if_neg hmax]
  have hV : ∀ field : StructField, ValidValue field key arg = none := by
    intro field
    unfold ValidValue
    cases field.Value with
    | string s => simp only [hS]
    | int n => simp only [hI]
    | intSlice l =>
      simp only
      induction l with
      | nil => rfl
      | cons x xs ih => rw [ValidValueIntLoop, hI]; exact ih
    | stringSlice l =>
      simp only
      induction l with
      | nil => rfl
      | cons x xs ih => rw [ValidValueStringLoop, hS]; exact ih
    | other t => rfl
  refine ⟨hT, hS, hI, hV, fun field val rest acc hs => ?_⟩
  rw [clauseLoop_valid field val key arg rest acc hs hT, hV]
  simp

/-- C9 (witness): the clause `foo:bar` on an exported string field. -/
theorem C9_unrecognized_predicate_witness :
    clauseLoop ⟨"Foo".toList, [], "foo:bar".toList, FieldValue.string "abc".toList⟩
        ["foo:bar".toList] [] =
      clauseLoop ⟨"Foo".toList, [], "foo:bar".toList, FieldValue.string "abc".toList⟩
        [] [] :=
  (C9_unrecognized_predicate "foo".toList "bar".toList
      (by decide) (by decide) (by decide) (by decide)).2.2.2.2
    ⟨"Foo".toList, [], "foo:bar".toList, FieldValue.string "abc".toList⟩
    "foo:bar".toList [] [] (by decide)

/-- C8 (witness): the empty argument of the field `InEmpty` of the tests. -/
theorem C8_in_argument_witness :
    ValidTag "in".toList [] = some GoError.ErrInvalidValidatorSyntax :=
  (C8_in_argument []).2.1 (by decide)

theorem utf8Size_ascii (c : Char) (h : c.toNat < 128) : c.utf8Size = 1 := by
  unfold Char.utf8Size
  have h1 : c.val ≤ UInt32.ofNatCore 127 (by decide) := by
    show c.val.toNat ≤ 127
    have : c.toNat = c.val.toNat := rfl
    omega
  exact if_pos h1

theorem byteLen_ascii (s : GoString) (h : ∀ c ∈ s, c.toNat < 128) :
    byteLen s = runeCount s := by
  induction s with
  | nil => rfl
  | cons c cs ih =>
    have hc := utf8Size_ascii c (h c (List.mem_cons_self _ _))
    have hcs := ih (fun d hd => h d (List.mem_cons_of_mem _ hd))
    simp only [byteLen, runeCount, List.map_cons, List.sum_cons, List.length_cons] at hcs ⊢
    omega

/-- C10 (counterexample): the value `"é"` has one character and two bytes;
under `len:1` it is rejected although its character count equals the
argument, and under `min:2` it is accepted although its character count is
less than the argument. -/
theorem C10_counterexample :
    runeCount "é".toList = 1 ∧ byteLen "é".toList = 2 ∧
    parsesAsInt "1".toList = some 1 ∧
    ValidString "é".toList "len".toList "1".toList =
      some (GoError.errorf "length does not matching".toList) ∧
    parsesAsInt "2".toList = some 2 ∧
    ValidString "é".toList "min".toList "2".toList = none := by
  decide

/-- C10 (amended): for every string value and every argument that parses as
the integer `n`, `ValidString` compares the number of bytes of the value, the
Go `len(value)`, with `n`: for `len` it returns an error iff that number is not
`n`, for `min` iff it is less than `n`, for `max` iff it is greater than `n`,
and nil otherwise.  The number of bytes is the number of characters when the
value holds ASCII characters only. -/
theorem C10_length_in_bytes (value a : GoString) (n : Int)
    (hparse : parsesAsInt a = some n) :
    (ValidString value "len".toList a ≠ none ↔ (byteLen value : Int) ≠ n) ∧
    (ValidString value "min".toList a ≠ none ↔ (byteLen value : Int) < n) ∧
    (ValidString value "max".toList a ≠ none ↔ (byteLen value : Int) > n) ∧
    ((∀ c ∈ value, c.toNat < 128) → byteLen value = runeCount value) := by
  have hA : Atoi a = (n, none) := (Atoi_spec a).1 n hparse
  refine ⟨?_, ?_, ?_, byteLen_ascii value⟩
  · unfold ValidString
    rw [if_pos rfl, hA]
    by_cases h : (byteLen value : Int) ≠ n
    · simp [h]
    · simp [h]
  · unfold ValidString
    rw [if_neg (by decide), if_neg (by decide), if_pos rfl, hA]
    by_cases h : (byteLen value : Int) < n
    · simp [h]
    · simp [h]
  · unfold ValidString
    rw [if_neg (by decide), if_neg (by decide), if_neg (by decide), if_pos rfl, hA]
    by_cases h : (byteLen value : Int) > n
    · simp [h]
    · simp [h]

/-- C10 (witness): the value `"é"` under the argument `2`. -/
theorem C10_length_in_bytes_witness :
    ValidString "é".toList "len".toList "2".toList = none := by
  have h := (C10_length_in_bytes "é".toList "2".toList 2 (by decide)).1
  by_contra hne
  exact (h.mp hne) (by decide)

/-! ### Membership (`in`) -/

theorem Contains_iff {T : Type} [DecidableEq T] (t : List T) (needle : T) :
    Contains t needle = true ↔ needle ∈ t := by
  induction t with
  | nil => simp [Contains]
  | cons v vs ih =>
    unfold Contains
    by_cases h : v = needle
    · rw [if_pos h]; simp [h]
    · rw [if_neg h, ih]
      constructor
      · exact fun hm => List.mem_cons_of_mem _ hm
      · intro hm
        rcases List.mem_cons.mp hm with h1 | h1
        · exact absurd h1.symm h
        · exact h1

/-- C11: `ValidString(value, "in", a)` returns nil if and only if `value` is
equal to one of the pieces `strings.Split(a, ",")` yields, and the error
`value - <value> not contain in tag value` otherwise; the pieces are compared
as they stand, without trimming and with case kept. -/
theorem C11_string_membership (value a : GoString) :
    (ValidString value "in".toList a = none ↔ value ∈ Split a ',') ∧
    (value ∉ Split a ',' →
      ValidString value "in".toList a =
        some (GoError.errorf
          ("value - ".toList ++ value ++ " not contain in tag value".toList))) := by
  have hform : ValidString value "in".toList a =
      if (!Contains (Split a ',') value) = true then
        some (GoError.errorf
          ("value - ".toList ++ value ++ " not contain in tag value".toList))
      else none := by
    unfold ValidString
    rw [if_neg (by decide), if_pos rfl]
  rw [hform]
  by_cases hm : value ∈ Split a ','
  · have hc : Contains (Split a ',') value = true := (Contains_iff _ _).mpr hm
    simp [hc, hm]
  · have hc : Contains (Split a ',') value = false := by
      cases h : Contains (Split a ',') value
      · rfl
      · exact absurd ((Contains_iff _ _).mp h) hm
    simp [hc, hm]

/-- C11 (witness): the fields `InStr` and `InA` of the tests, and arguments
that differ from the value by a blank or by case. -/
theorem C11_string_membership_witness :
    ValidString "bar".toList "in".toList "foo,bar".toList = none ∧
    ValidString "ef".toList "in".toList "ab,cd".toList =
      some (GoError.errorf "value - ef not contain in tag value".toList) ∧
    ValidString "bar".toList "in".toList "foo, bar".toList =
      some (GoError.errorf "value - bar not contain in tag value".toList) ∧
    ValidString "bar".toList "in".toList "foo,Bar".toList =
      some (GoError.errorf "value - bar not contain in tag value".toList) :=
  ⟨(C11_string_membership "bar".toList "foo,bar".toList).1.mpr (by decide),
   (C11_string_membership "ef".toList "ab,cd".toList).2 (by decide),
   (C11_string_membership "bar".toList "foo, bar".toList).2 (by decide),
   (C11_string_membership "bar".toList "foo,Bar".toList).2 (by decide)⟩

theorem PerformToIntSliceLoop_cons (val : GoString) (rest : List GoString)
    (arr : List Int) :
    PerformToIntSliceLoop (val :: rest) arr =
      match parsesAsInt val with
      | some n => PerformToIntSliceLoop rest (arr ++ [n])
      | none => none := by
  obtain ⟨h1, h2⟩ := ParseInt_spec val
  rw [PerformToIntSliceLoop]
  cases hp : parsesAsInt val with
  | none =>
    have hne := h2 hp
    cases hP : ParseInt val with
    | mk num err =>
      rw [hP] at hne
      simp only
      rw [if_pos hne]
  | some n =>
    rw [h1 n hp]
    simp

theorem PerformToIntSliceLoop_ok (pieces : List GoString)
    (h : ∀ p ∈ pieces, parsesAsInt p ≠ none) :
    ∀ arr : List Int,
      PerformToIntSliceLoop pieces arr = some (arr ++ pieces.filterMap parsesAsInt) := by
  induction pieces with
  | nil => intro arr; simp [PerformToIntSliceLoop]
  | cons p ps ih =>
    intro arr
    rw [PerformToIntSliceLoop_cons]
    have hp := h p (List.mem_cons_self _ _)
    cases hv : parsesAsInt p with
    | none => exact absurd hv hp
    | some n =>
      simp only
      rw [ih (fun q hq => h q (List.mem_cons_of_mem _ hq)), List.filterMap_cons, hv]
      simp

theorem PerformToIntSliceLoop_fail (pieces : List GoString)
    (h : ∃ p ∈ pieces, parsesAsInt p = none) :
    ∀ arr : List Int, PerformToIntSliceLoop pieces arr = none := by
  induction pieces with
  | nil =>
    obtain ⟨p, hp, _⟩ := h
    exact absurd hp (List.not_mem_nil _)
  | cons q qs ih =>
    intro arr
    rw [PerformToIntSliceLoop_cons]
    cases hv : parsesAsInt q with
    | none => rfl
    | some n =>
      simp only
      obtain ⟨p, hp, hpn⟩ := h
      rcases List.mem_cons.mp hp with h1 | h1
      · rw [h1, hv] at hpn
        exact absurd hpn (by simp)
      · exact ih ⟨p, h1, hpn⟩ _

/-- C12: `ValidInt(value, "in", a)`: when some piece of `a` between commas does
not parse as a base-10 signed 64-bit integer the result is
`ErrInvalidValidatorSyntax`, whatever the value and the other pieces; when
every piece parses, the result is nil if and only if `value` is one of the
parsed integers, and otherwise the error
`value - <value> not contain in tag value`, which is not
`ErrInvalidValidatorSyntax`.  With the argument `20,25,30` the value 25 passes
and 26 fails. -/
theorem C12_int_membership (value : Int) (a : GoString) :
    ((∃ p ∈ Split a ',', parsesAsInt p = none) →
      ValidInt value "in".toList a = some GoError.ErrInvalidValidatorSyntax) ∧
    ((∀ p ∈ Split a ',', parsesAsInt p ≠ none) →
      (ValidInt value "in".toList a = none ↔
        ∃ p ∈ Split a ',', parsesAsInt p = some value) ∧
      ((¬ ∃ p ∈ Split a ',', parsesAsInt p = some value) →
        ValidInt value "in".toList a =
          some (GoError.errorf
            ("value - ".toList ++ formatInt value ++
              " not contain in tag value".toList)) ∧
        ValidInt value "in".toList a ≠ some GoError.ErrInvalidValidatorSyntax)) := by
  have hform : ValidInt value "in".toList a =
      match PerformToIntSlice a with
      | none => some GoError.ErrInvalidValidatorSyntax
      | some values =>
        if (!Contains values value) = true then
          some (GoError.errorf
            ("value - ".toList ++ formatInt value ++ " not contain in tag value".toList))
        else none := by
    unfold ValidInt
    rw [if_pos rfl]
  constructor
  · intro hbad
    rw [hform, PerformToIntSlice, PerformToIntSliceLoop_fail _ hbad]
  · intro hall
    have hmem : value ∈ (Split a ',').filterMap parsesAsInt ↔
        ∃ p ∈ Split a ',', parsesAsInt p = some value := by
      simp [List.mem_filterMap]
    rw [hform, PerformToIntSlice, PerformToIntSliceLoop_ok _ hall, List.nil_append]
    simp only
    by_cases hm : value ∈ (Split a ',').filterMap parsesAsInt
    · have hc : Contains ((Split a ',').filterMap parsesAsInt) value = true :=
        (Contains_iff _ _).mpr hm
      refine ⟨?_, fun hne => absurd (hmem.mp hm) hne⟩
      rw [hc]
      simp only [Bool.not_true, Bool.false_eq_true, if_false, true_iff]
      exact hmem.mp hm
    · have hc : Contains ((Split a ',').filterMap parsesAsInt) value = false := by
        cases h : Contains ((Split a ',').filterMap parsesAsInt) value
        · rfl
        · exact absurd ((Contains_iff _ _).mp h) hm
      rw [hc]
      simp only [Bool.not_false, if_true]
      refine ⟨?_, fun _ => by simp⟩
      constructor
      · intro h; exact absurd h (by simp)
      · intro h; exact absurd (hmem.mpr h) hm

/-- C12 (witness): the field `Age int` tagged `in:20,25,30` with the values 25
and 26, and the argument `5-` of the tests. -/
theorem C12_int_membership_witness :
    ValidInt 25 "in".toList "20,25,30".toList = none ∧
    ValidInt 26 "in".toList "20,25,30".toList =
      some (GoError.errorf "value - 26 not contain in tag value".toList) ∧
    ValidInt 12 "in".toList "5-".toList = some GoError.ErrInvalidValidatorSyntax :=
  ⟨((C12_int_membership 25 "20,25,30".toList).2 (by decide)).1.mpr (by decide),
   (((C12_int_membership 26 "20,25,30".toList).2 (by decide)).2 (by decide)).1.trans
     (by decide),
   (C12_int_membership 12 "5-".toList).1 (by decide)⟩

/-! ### Bounds on integers (`min`, `max`) -/

theorem signed_fail_value (neg : Bool) (r : Nat × Option NumError)
    (h : (signed neg r).2 ≠ none) :
    (signed neg r).1 = 0 ∨ (signed neg r).1 = 2 ^ 63 - 1 ∨
      (signed neg r).1 = -(2 : Int) ^ 63 := by
  unfold signed at h ⊢
  split
  · exact Or.inl rfl
  · split
    · exact Or.inr (Or.inl rfl)
    · split
      · exact Or.inr (Or.inr rfl)
      · rename_i h1 h2 h3
        rw [if_neg h1, if_neg h2, if_neg h3] at h
        split at h <;> exact absurd rfl h

theorem ParseInt_fail_value (a : GoString) (h : (ParseInt a).2 ≠ none) :
    (ParseInt a).1 = 0 ∨ (ParseInt a).1 = 2 ^ 63 - 1 ∨
      (ParseInt a).1 = -(2 : Int) ^ 63 := by
  cases a with
  | nil => exact Or.inl rfl
  | cons c cs =>
    rw [ParseInt_eq_signed] at h ⊢
    exact signed_fail_value _ _ h

theorem ValidInt_min (value : Int) (a : GoString) :
    ValidInt value "min".toList a =
      if value < (ParseInt a).1 then
        some (GoError.errorf "number less than required".toList)
      else none := by
  unfold ValidInt
  rw [if_neg (by decide), if_pos rfl]

theorem ValidInt_max (value : Int) (a : GoString) :
    ValidInt value "max".toList a =
      if value > (ParseInt a).1 then
        some (GoError.errorf "number is greater than required".toList)
      else none := by
  unfold ValidInt
  rw [if_neg (by decide), if_neg (by decide), if_pos rfl]

/-- C13 (counterexample): the argument `abc` does not parse as an integer, and
`ValidInt` fails on it: the value -1 under `min` and the value 1 under `max`
are compared with the number 0 that the failed parse returns. -/
theorem C13_counterexample :
    parsesAsInt "abc".toList = none ∧
    ValidInt (-1) "min".toList "abc".toList =
      some (GoError.errorf "number less than required".toList) ∧
    ValidInt 1 "max".toList "abc".toList =
      some (GoError.errorf "number is greater than required".toList) := by
  decide

/-- C13 (amended): when the argument `a` parses as the integer `n`, `ValidInt`
returns an error for `min` iff `value < n` and for `max` iff `value > n`.  When
`a` does not parse, `ValidInt` drops the error of `strconv.ParseInt` and
compares `value` with the number returned beside it, which is 0 (syntax error)
or the bound `2^63 - 1` or `-2^63` (range error): it returns an error for `min`
iff `value` is below that number and for `max` iff `value` is above it.
`ValidTag` rejects every such argument, so `Validate` does not reach `ValidInt`
with it. -/
theorem C13_int_bounds (value : Int) (a : GoString) :
    (∀ n : Int, parsesAsInt a = some n →
      (ValidInt value "min".toList a ≠ none ↔ value < n) ∧
      (ValidInt value "max".toList a ≠ none ↔ value > n)) ∧
    (parsesAsInt a = none →
      ((ParseInt a).1 = 0 ∨ (ParseInt a).1 = 2 ^ 63 - 1 ∨
        (ParseInt a).1 = -(2 : Int) ^ 63) ∧
      (ValidInt value "min".toList a ≠ none ↔ value < (ParseInt a).1) ∧
      (ValidInt value "max".toList a ≠ none ↔ value > (ParseInt a).1) ∧
      ValidTag "min".toList a = some GoError.ErrInvalidValidatorSyntax ∧
      ValidTag "max".toList a = some GoError.ErrInvalidValidatorSyntax) := by
  have hmin : ValidInt value "min".toList a ≠ none ↔ value < (ParseInt a).1 := by
    rw [ValidInt_min]
    by_cases h : value < (ParseInt a).1
    · simp [h]
    · simp [h]
  have hmax : ValidInt value "max".toList a ≠ none ↔ value > (ParseInt a).1 := by
    rw [ValidInt_max]
    by_cases h : value > (ParseInt a).1
    · simp [h]
    · simp [h]
  constructor
  · intro n hn
    have hP : ParseInt a = (n, none) := (ParseInt_spec a).1 n hn
    rw [hP] at hmin hmax
    exact ⟨hmin, hmax⟩
  · intro hn
    refine ⟨ParseInt_fail_value a ((ParseInt_spec a).2 hn), hmin, hmax, ?_, ?_⟩
    · rw [ValidTag_min, hn]
    · rw [ValidTag_max, hn]

/-- C13 (witness): the field `MinB int` with value -22 tagged `min:-12` of the
tests, and the unparsable argument `5-`. -/
theorem C13_int_bounds_witness :
    (ValidInt (-22) "min".toList "-12".toList ≠ none ↔ (-22 : Int) < -12) ∧
    (ValidInt (-22) "min".toList "5-".toList ≠ none ↔
      (-22 : Int) < (ParseInt "5-".toList).1) :=
  ⟨((C13_int_bounds (-22) "-12".toList).1 (-12) (by decide)).1,
   ((C13_int_bounds (-22) "5-".toList).2 (by decide)).2.1⟩

/-! ### The joined message (`errors.go`) -/

theorem foldl_join_Error (es : List ValidationError) :
    ∀ e0 : GoError,
      (es.foldl (fun err x => GoError.join err x.Err) e0).Error =
        e0.Error ++ tailLines (es.map (fun e => e.Err.Error)) := by
  induction es with
  | nil => intro e0; simp [tailLines]
  | cons e rest ih =>
    intro e0
    rw [List.foldl_cons, ih]
    simp [GoError.Error, tailLines]

theorem infix_tailLines (m : GoString) (ms : List GoString) (h : m ∈ ms) :
    m <:+: tailLines ms := by
  induction ms with
  | nil => exact absurd h (List.not_mem_nil _)
  | cons x xs ih =>
    rcases List.mem_cons.mp h with h1 | h1
    · subst h1
      exact ⟨['\n'], tailLines xs, by simp [tailLines]⟩
    · obtain ⟨s, t, hst⟩ := ih h1
      exact ⟨'\n' :: x ++ s, t, by simp [tailLines, ← hst]⟩

/-- C14: for every collection `v` (its entries hold non-nil errors),
`v.Error()` is the empty string when `v` is empty, the message of the single
entry when `v` has one, and in every case the messages of the entries in
insertion order separated by newlines; each entry's message occurs in it. -/
theorem C14_joined_message :
    ValidationErrors.Error [] = [] ∧
    (∀ e : ValidationError, ValidationErrors.Error [e] = e.Err.Error) ∧
    (∀ v : ValidationErrors,
      ValidationErrors.Error v = joinMessages (v.map (fun e => e.Err.Error))) ∧
    (∀ (e1 e2 : ValidationError) (rest : ValidationErrors),
      ValidationErrors.Error (e1 :: e2 :: rest) =
        e1.Err.Error ++ '\n' :: e2.Err.Error ++
          tailLines (rest.map (fun e => e.Err.Error))) ∧
    (∀ (v : ValidationErrors) (e : ValidationError), e ∈ v →
      e.Err.Error <:+: ValidationErrors.Error v) := by
  have hall : ∀ v : ValidationErrors,
      ValidationErrors.Error v = joinMessages (v.map (fun e => e.Err.Error)) := by
    intro v
    cases v with
    | nil => rfl
    | cons e es =>
      cases es with
      | nil => simp [ValidationErrors.Error, joinMessages, tailLines]
      | cons e2 rest =>
        have h : ValidationErrors.Error (e :: e2 :: rest) =
            ((e2 :: rest).foldl (fun err x => GoError.join err x.Err) e.Err).Error := rfl
        rw [h, foldl_join_Error]
        rfl
  refine ⟨rfl, fun e => rfl, hall, fun e1 e2 rest => ?_, fun v e he => ?_⟩
  · rw [hall]
    simp [joinMessages, tailLines]
  · rw [hall]
    cases v with
    | nil => exact absurd he (List.not_mem_nil _)
    | cons x xs =>
      rcases List.mem_cons.mp he with h1 | h1
      · subst h1
        exact ⟨[], tailLines (xs.map (fun e => e.Err.Error)), by simp [joinMessages]⟩
      · obtain ⟨s, t, hst⟩ :=
          infix_tailLines e.Err.Error (xs.map (fun e => e.Err.Error))
            (List.mem_map_of_mem _ h1)
        exact ⟨x.Err.Error ++ s, t, by simp [joinMessages, ← hst]⟩

/-- C14 (witness): the joined message of two errors of the tests. -/
theorem C14_joined_message_witness :
    ValidationErrors.Error
        [⟨GoError.ErrInvalidValidatorSyntax⟩, ⟨GoError.ErrValidateForUnexportedFields⟩] =
      "invalid validator syntax\nvalidation for unexported field is not allowed".toList ∧
    GoError.ErrValidateForUnexportedFields.Error <:+:
      ValidationErrors.Error
        [⟨GoError.ErrInvalidValidatorSyntax⟩, ⟨GoError.ErrValidateForUnexportedFields⟩] :=
  ⟨(C14_joined_message.2.2.2.1 ⟨GoError.ErrInvalidValidatorSyntax⟩
      ⟨GoError.ErrValidateForUnexportedFields⟩ []).trans (by decide),
   C14_joined_message.2.2.2.2 _ ⟨GoError.ErrValidateForUnexportedFields⟩ (by decide)⟩

/-! ### The shape of a clause -/

theorem Split_length (s : GoString) (sep : Char) :
    (Split s sep).length = s.count sep + 1 := by
  induction s with
  | nil => rfl
  | cons c cs ih =>
    unfold Split
    by_cases h : c = sep
    · rw [if_pos h, List.length_cons, ih, h, List.count_cons_self]
    · rw [if_neg h, List.count_cons_of_ne (Ne.symm h)]
      cases hs : Split cs sep with
      | nil => rw [hs] at ih; simp at ih
      | cons piece pieces => rw [hs] at ih; simpa using ih

theorem count_dropWhile (l : GoString) (c : Char) (hc : IsSpace c = false) :
    (l.dropWhile IsSpace).count c = l.count c := by
  induction l with
  | nil => rfl
  | cons x xs ih =>
    rw [List.dropWhile_cons]
    by_cases hx : IsSpace x = true
    · rw [if_pos hx, ih]
      have hne : x ≠ c := by
        intro h
        rw [h, hc] at hx
        exact absurd hx (by simp)
      rw [List.count_cons_of_ne (Ne.symm hne)]
    · rw [if_neg hx]

theorem count_TrimSpace (s : GoString) (c : Char) (hc : IsSpace c = false) :
    (TrimSpace s).count c = s.count c := by
  unfold TrimSpace
  rw [List.count_reverse, count_dropWhile _ c hc, List.count_reverse,
    count_dropWhile _ c hc]

/-- One turn of the clause loop on a clause that does not split in two. -/
theorem clauseLoop_malformed (field : StructField) (val : GoString)
    (rest : List GoString) (acc : ValidationErrors)
    (h : (Split (TrimSpace val) ':').length ≠ 2) :
    clauseLoop field (val :: rest) acc =
      acc ++ [⟨GoError.errorf ("error with field ".toList ++ field.Name)⟩] := by
  rw [clauseLoop]
  split
  · rename_i key arg heq
    rw [heq] at h
    exact absurd rfl h
  · rfl

/-- C15 (counterexample): the exported string field with value `"a:b"` tagged
`"in:a:b"` is split at both colons into three parts and rejected as malformed:
`Validate` returns the error `error with field Foo`. -/
theorem C15_counterexample :
    Split (TrimSpace "in:a:b".toList) ':' = ["in".toList, "a".toList, "b".toList] ∧
    Validate (GoAny.value Kind.Struct
        [⟨"Foo".toList, [], "in:a:b".toList, FieldValue.string "a:b".toList⟩]) =
      ValidateResult.errs [⟨GoError.errorf "error with field Foo".toList⟩] := by
  decide

/-- C15 (amended): a clause is split at every `:`; a clause with more than one
`:` yields more than two parts (one more than the number of its colons), and
the clause loop rejects it as malformed: it appends the error
`error with field <name>` and leaves the clauses of the field, without
checking or evaluating the clause. -/
theorem C15_many_colons_malformed (field : StructField) (val : GoString)
    (rest : List GoString) (acc : ValidationErrors) (hcolons : 1 < val.count ':') :
    (Split (TrimSpace val) ':').length = val.count ':' + 1 ∧
    clauseLoop field (val :: rest) acc =
      acc ++ [⟨GoError.errorf ("error with field ".toList ++ field.Name)⟩] := by
  have hlen : (Split (TrimSpace val) ':').length = val.count ':' + 1 := by
    rw [Split_length, count_TrimSpace val ':' (by decide)]
  exact ⟨hlen, clauseLoop_malformed field val rest acc (by omega)⟩

/-- C15 (witness): the clause `in:a:b`. -/
theorem C15_many_colons_malformed_witness :
    (Split (TrimSpace "in:a:b".toList) ':').length = "in:a:b".toList.count ':' + 1 ∧
    clauseLoop ⟨"Foo".toList, [], "in:a:b".toList, FieldValue.string "a:b".toList⟩
        ("in:a:b".toList :: []) [] =
      [] ++ [⟨GoError.errorf ("error with field ".toList ++ "Foo".toList)⟩] :=
  C15_many_colons_malformed
    ⟨"Foo".toList, [], "in:a:b".toList, FieldValue.string "a:b".toList⟩
    "in:a:b".toList [] [] (by decide)

theorem Split_append (s t : GoString) (sep : Char) :
    Split (s ++ sep :: t) sep = Split s sep ++ Split t sep := by
  induction s with
  | nil => simp [Split]
  | cons c cs ih =>
    rw [List.cons_append, Split, Split]
    by_cases h : c = sep
    · rw [if_pos h, if_pos h, ih, List.cons_append]
    · rw [if_neg h, if_neg h, ih]
      cases hs : Split cs sep with
      | nil =>
        have := Split_length_pos cs sep
        rw [hs] at this
        exact absurd this (by simp)
      | cons piece pieces => rfl

theorem Split_no_sep (s : GoString) (sep : Char) (h : sep ∉ s) : Split s sep = [s] := by
  induction s with
  | nil => rfl
  | cons c cs ih =>
    have hc : c ≠ sep := fun e => h (e ▸ List.mem_cons_self _ _)
    have hcs : sep ∉ cs := fun e => h (List.mem_cons_of_mem _ e)
    rw [Split, if_neg hc, ih hcs]

theorem clauseLoop_length_le (field : StructField) (clauses : List GoString) :
    ∀ acc : ValidationErrors, acc.length ≤ (clauseLoop field clauses acc).length := by
  induction clauses with
  | nil => intro acc; exact Nat.le_refl _
  | cons val rest ih =>
    intro acc
    rw [clauseLoop]
    split
    · split
      · simp
      · split
        · have := ih (acc ++ [⟨‹GoError›⟩])
          simp only [List.length_append, List.length_singleton] at this
          omega
        · exact ih acc
    · simp

theorem ValidTag_unrecognized (key arg : GoString)
    (hlen : key ≠ "len".toList) (hin : key ≠ "in".toList)
    (hmin : key ≠ "min".toList) (hmax : key ≠ "max".toList) :
    ValidTag key arg = none := by
  unfold ValidTag
  rw [if_neg hlen, if_neg hin, if_neg hmin, if_neg hmax]

theorem ValidValue_unrecognized (field : StructField) (key arg : GoString)
    (hlen : key ≠ "len".toList) (hin : key ≠ "in".toList)
    (hmin : key ≠ "min".toList) (hmax : key ≠ "max".toList) :
    ValidValue field key arg = none := by
  have hS : ∀ value : GoString, ValidString value key arg = none := by
    intro value
    unfold ValidString
    rw [if_neg hlen, if_neg hin, if_neg hmin, if_neg hmax]
  have hI : ∀ value : Int, ValidInt value key arg = none := by
    intro value
    unfold ValidInt
    rw [if_neg hin, if_neg hmin, if_neg hmax]
  unfold ValidValue
  cases field.Value with
  | string s => simp only [hS]
  | int n => simp only [hI]
  | intSlice l =>
    simp only
    induction l with
    | nil => rfl
    | cons x xs ih => rw [ValidValueIntLoop, hI]; exact ih
  | stringSlice l =>
    simp only
    induction l with
    | nil => rfl
    | cons x xs ih => rw [ValidValueStringLoop, hS]; exact ih
  | other t => rfl

/-- One turn of the clause loop on a clause with an unrecognized predicate. -/
theorem clauseLoop_unrecognized (field : StructField) (val key arg : GoString)
    (rest : List GoString) (acc : ValidationErrors)
    (hsplit : Split (TrimSpace val) ':' = [key, arg])
    (hlen : key ≠ "len".toList) (hin : key ≠ "in".toList)
    (hmin : key ≠ "min".toList) (hmax : key ≠ "max".toList) :
    clauseLoop field (val :: rest) acc = clauseLoop field rest acc := by
  rw [clauseLoop_valid field val key arg rest acc hsplit
      (ValidTag_unrecognized key arg hlen hin hmin hmax),
    ValidValue_unrecognized field key arg hlen hin hmin hmax]
  simp

theorem validClause_split {c : GoString} (h : validClause c = true) :
    ∃ key arg, Split (TrimSpace c) ':' = [key, arg] ∧ ValidTag key arg = none := by
  unfold validClause at h
  split at h
  · rename_i key arg heq
    exact ⟨key, arg, heq, Option.isNone_iff_eq_none.mp h⟩
  · exact absurd h (by simp)

theorem validClause_false {c : GoString} (h : validClause c = false) :
    (Split (TrimSpace c) ':').length ≠ 2 ∨
      ∃ key arg err, Split (TrimSpace c) ':' = [key, arg] ∧ ValidTag key arg = some err := by
  unfold validClause at h
  split at h
  · rename_i key arg heq
    right
    cases hv : ValidTag key arg with
    | none => rw [hv] at h; exact absurd h (by simp)
    | some err => exact ⟨key, arg, err, heq, hv⟩
  · rename_i hne
    left
    intro hlen
    match hs : Split (TrimSpace c) ':', hlen with
    | [key, arg], _ => exact hne key arg hs

theorem validClause_of_malformed {c : GoString}
    (h : (Split (TrimSpace c) ':').length ≠ 2) : validClause c = false := by
  unfold validClause
  split
  · rename_i key arg heq
    rw [heq] at h
    exact absurd rfl h
  · rfl

theorem validClause_of_rejected {c key arg : GoString} {err : GoError}
    (hs : Split (TrimSpace c) ':' = [key, arg]) (hv : ValidTag key arg = some err) :
    validClause c = false := by
  unfold validClause
  rw [hs]
  simp only [hv]
  rfl

/-- The only error `ValidTag` returns is `ErrInvalidValidatorSyntax`. -/
theorem ValidTag_error (key arg : GoString) (err : GoError)
    (h : ValidTag key arg = some err) : err = GoError.ErrInvalidValidatorSyntax := by
  unfold ValidTag at h
  split at h
  · cases hA : Atoi arg with
    | mk num e =>
      rw [hA] at h
      simp only at h
      split at h
      · exact (Option.some.inj h).symm
      · split at h
        · exact (Option.some.inj h).symm
        · exact absurd h (by simp)
  · split at h
    · split at h
      · exact (Option.some.inj h).symm
      · split at h
        · exact (Option.some.inj h).symm
        · exact absurd h (by simp)
    · split at h
      · split at h
        · exact (Option.some.inj h).symm
        · exact absurd h (by simp)
      · split at h
        · split at h
          · exact (Option.some.inj h).symm
          · exact absurd h (by simp)
        · exact absurd h (by simp)

/-- The clause loop runs through a prefix of syntactically valid clauses and
goes on with the clauses that follow. -/
theorem clauseLoop_through_valid (field : StructField) (pre rest : List GoString)
    (h : ∀ d ∈ pre, validClause d = true) :
    ∀ acc : ValidationErrors,
      clauseLoop field (pre ++ rest) acc = clauseLoop field rest (clauseLoop field pre acc) := by
  induction pre with
  | nil => intro acc; rfl
  | cons d ds ih =>
    intro acc
    obtain ⟨key, arg, hs, hv⟩ := validClause_split (h d (List.mem_cons_self _ _))
    rw [List.cons_append, clauseLoop_valid field d key arg (ds ++ rest) acc hs hv,
      clauseLoop_valid field d key arg ds acc hs hv]
    exact ih (fun e he => h e (List.mem_cons_of_mem _ he)) _

/-- When some clause of a field is not syntactically valid, the clause loop
ends on a syntax error: its result is the earlier errors followed by
`ErrInvalidValidatorSyntax` or by `error with field <name>`. -/
theorem clauseLoop_ends_on_syntax_error (field : StructField) (clauses : List GoString)
    (h : ∃ c ∈ clauses, validClause c = false) :
    ∀ acc : ValidationErrors,
      ∃ (errs : ValidationErrors) (e : GoError),
        clauseLoop field clauses acc = acc ++ errs ++ [⟨e⟩] ∧
        (e = GoError.ErrInvalidValidatorSyntax ∨
          e = GoError.errorf ("error with field ".toList ++ field.Name)) := by
  induction clauses with
  | nil =>
    obtain ⟨c, hc, _⟩ := h
    exact absurd hc (List.not_mem_nil _)
  | cons d ds ih =>
    intro acc
    cases hd : validClause d with
    | false =>
      rcases validClause_false hd with hm | ⟨key, arg, err, hs, hv⟩
      · exact ⟨[], _, by rw [clauseLoop_malformed field d ds acc hm]; simp, Or.inr rfl⟩
      · refine ⟨[], err, ?_, Or.inl (ValidTag_error key arg err hv)⟩
        rw [clauseLoop_rejected field d key arg ds acc err hs hv]
        simp
    | true =>
      obtain ⟨key, arg, hs, hv⟩ := validClause_split hd
      have hrest : ∃ c ∈ ds, validClause c = false := by
        obtain ⟨c, hc, hbad⟩ := h
        rcases List.mem_cons.mp hc with h1 | h1
        · rw [h1, hd] at hbad; exact absurd hbad (by simp)
        · exact ⟨c, h1, hbad⟩
      obtain ⟨errs, e, heq, he⟩ :=
        ih hrest (acc ++ ((ValidValue field key arg).map ValidationError.mk).toList)
      refine ⟨((ValidValue field key arg).map ValidationError.mk).toList ++ errs, e, ?_, he⟩
      rw [clauseLoop_valid field d key arg ds acc hs hv, heq]
      simp

/-- The clauses that follow a clause which is not syntactically valid are
never looked at. -/
theorem clauseLoop_stops_at_invalid (field : StructField) (bad : GoString)
    (rest : List GoString) (hbad : validClause bad = false) :
    ∀ (before : List GoString) (acc : ValidationErrors),
      clauseLoop field (before ++ bad :: rest) acc =
        clauseLoop field (before ++ [bad]) acc := by
  have hend : ∀ a, clauseLoop field (bad :: rest) a = clauseLoop field [bad] a := by
    intro a
    rcases validClause_false hbad with hm | ⟨key, arg, err, hs, hv⟩
    · rw [clauseLoop_malformed field bad rest a hm, clauseLoop_malformed field bad [] a hm]
    · rw [clauseLoop_rejected field bad key arg rest a err hs hv,
        clauseLoop_rejected field bad key arg [] a err hs hv]
  intro before
  induction before with
  | nil => intro acc; exact hend acc
  | cons p ps ih =>
    intro acc
    simp only [List.cons_append, clauseLoop]
    split
    · split
      · rfl
      · split
        · exact ih _
        · exact ih _
    · rfl

/-- C16 (counterexample): on an exported string field the clause `:5`, with an
empty predicate, and the clause `foo:`, with an empty argument, split into two
parts and are accepted: `Validate` returns nil. -/
theorem C16_counterexample :
    Split (TrimSpace ":5".toList) ':' = [[], "5".toList] ∧
    Validate (GoAny.value Kind.Struct
        [⟨"Foo".toList, [], ":5".toList, FieldValue.string "abc".toList⟩]) =
      ValidateResult.nil ∧
    Split (TrimSpace "foo:".toList) ':' = ["foo".toList, []] ∧
    Validate (GoAny.value Kind.Struct
        [⟨"Foo".toList, [], "foo:".toList, FieldValue.string "abc".toList⟩]) =
      ValidateResult.nil := by
  decide

/-- C16 (amended): a clause that does not split into exactly two parts around
`:` makes `Validate` record a syntax error for its field instead of accepting
or evaluating it: the errors of the field end with `error with field <name>`
or with `ErrInvalidValidatorSyntax`, wherever the clause stands among the
clauses, and with `error with field <name>` for the clause itself when the
clauses before it are syntactically valid.  This covers a clause without `:`
(it is one part) and the empty segment that a leading, trailing or doubled `;`
leaves in the rule text (`strings.Split` keeps it).  The two parts need not be
non-empty: a clause with an empty predicate, and a clause with an empty
argument to a predicate other than `len`, `in`, `min`, `max`, are accepted
without error when the clauses before them are syntactically valid; an empty
argument to `len`, `in`, `min` or `max` is not syntactically valid either and
is answered by `ErrInvalidValidatorSyntax` when the clause is reached. -/
theorem C16_clause_shape (field : StructField) (val : GoString) :
    ((Split (TrimSpace val) ':').length ≠ 2 → validClause val = false) ∧
    (validClause val = false →
      (∀ (clauses : List GoString) (acc : ValidationErrors), val ∈ clauses →
        ∃ (errs : ValidationErrors) (e : GoError),
          clauseLoop field clauses acc = acc ++ errs ++ [⟨e⟩] ∧
          (e = GoError.ErrInvalidValidatorSyntax ∨
            e = GoError.errorf ("error with field ".toList ++ field.Name))) ∧
      (field.IsExported = true → field.validate ≠ [] →
        val ∈ Split field.validate ';' →
        ∀ pre post : List StructField,
          ∃ (errs : ValidationErrors) (e : GoError),
            fieldLoop (pre ++ field :: post) [] =
              fieldLoop pre [] ++ errs ++ [⟨e⟩] ++ fieldLoop post [] ∧
            (e = GoError.ErrInvalidValidatorSyntax ∨
              e = GoError.errorf ("error with field ".toList ++ field.Name)))) ∧
    ((Split (TrimSpace val) ':').length ≠ 2 →
      ∀ (pre post : List GoString) (acc : ValidationErrors),
        (∀ d ∈ pre, validClause d = true) →
        clauseLoop field (pre ++ val :: post) acc =
          clauseLoop field pre acc ++
            [⟨GoError.errorf ("error with field ".toList ++ field.Name)⟩]) ∧
    (':' ∉ val → (Split (TrimSpace val) ':').length = 1) ∧
    (∀ s t : GoString,
      Split (s ++ ';' :: t) ';' = Split s ';' ++ Split t ';' ∧
      Split (s ++ [';']) ';' = Split s ';' ++ [[]] ∧
      Split (';' :: t) ';' = [] :: Split t ';' ∧
      Split (s ++ ';' :: ';' :: t) ';' = Split s ';' ++ [] :: Split t ';') ∧
    (∀ (arg : GoString) (before rest : List GoString) (acc : ValidationErrors),
      Split (TrimSpace val) ':' = [[], arg] →
      (∀ d ∈ before, validClause d = true) →
      clauseLoop field (before ++ val :: rest) acc =
        clauseLoop field rest (clauseLoop field before acc)) ∧
    (∀ (key : GoString) (before rest : List GoString) (acc : ValidationErrors),
      Split (TrimSpace val) ':' = [key, []] →
      (∀ d ∈ before, validClause d = true) →
      (key ≠ "len".toList → key ≠ "in".toList → key ≠ "min".toList →
        key ≠ "max".toList →
        clauseLoop field (before ++ val :: rest) acc =
          clauseLoop field rest (clauseLoop field before acc)) ∧
      (key = "len".toList ∨ key = "in".toList ∨ key = "min".toList ∨
        key = "max".toList →
        validClause val = false ∧
        clauseLoop field (before ++ val :: rest) acc =
          clauseLoop field before acc ++ [⟨GoError.ErrInvalidValidatorSyntax⟩])) := by
  refine ⟨validClause_of_malformed, fun hbad => ⟨fun clauses acc hmem => ?_,
    fun hexp htag hmem pre post => ?_⟩, fun hm pre post acc hpre => ?_, ?_, ?_, ?_, ?_⟩
  · exact clauseLoop_ends_on_syntax_error field clauses ⟨val, hmem, hbad⟩ acc
  · obtain ⟨errs, e, heq, he⟩ :=
      clauseLoop_ends_on_syntax_error field (Split field.validate ';')
        ⟨val, hmem, hbad⟩ (fieldLoop pre [])
    refine ⟨errs, e, ?_, he⟩
    rw [fieldLoop_append, fieldLoop_exported field post _ hexp htag, heq,
      fieldLoop_acc post]
  · rw [clauseLoop_through_valid field pre (val :: post) hpre,
      clauseLoop_malformed field val post _ hm]
  · intro h
    rw [Split_length, count_TrimSpace val ':' (by decide), List.count_eq_zero_of_not_mem h]
  · intro s t
    refine ⟨Split_append s t ';', ?_, ?_, ?_⟩
    · rw [Split_append]; rfl
    · rw [Split, if_pos rfl]
    · rw [Split_append, Split, if_pos rfl]
  · intro arg before rest acc hs hbefore
    rw [clauseLoop_through_valid field before (val :: rest) hbefore]
    exact clauseLoop_unrecognized field val [] arg rest _ hs
      (by decide) (by decide) (by decide) (by decide)
  · intro key before rest acc hs hbefore
    rw [clauseLoop_through_valid field before (val :: rest) hbefore]
    refine ⟨fun h1 h2 h3 h4 => clauseLoop_unrecognized field val key [] rest _ hs h1 h2 h3 h4,
      fun hkey => ?_⟩
    have hrej : ValidTag key [] = some GoError.ErrInvalidValidatorSyntax := by
      rcases hkey with h | h | h | h <;> (rw [h]; decide)
    exact ⟨validClause_of_rejected hs hrej,
      clauseLoop_rejected field val key [] rest _ _ hs hrej⟩

/-- C16 (witness): the empty segment that the trailing `;` leaves in the rule
texts `len:x;` and `len:3;` on a string field of length 3: after the rejected
`len:x` the errors of the field end with a syntax error, and after the valid
`len:3` the empty segment is answered by `error with field Foo`. -/
theorem C16_clause_shape_witness :
    (∃ (errs : ValidationErrors) (e : GoError),
      clauseLoop ⟨"Foo".toList, [], "len:x;".toList, FieldValue.string "abc".toList⟩
          (Split "len:x;".toList ';') [] = [] ++ errs ++ [⟨e⟩] ∧
        (e = GoError.ErrInvalidValidatorSyntax ∨
          e = GoError.errorf ("error with field ".toList ++ "Foo".toList))) ∧
    clauseLoop ⟨"Foo".toList, [], "len:3;".toList, FieldValue.string "abc".toList⟩
        (["len:3".toList] ++ [] :: []) [] =
      clauseLoop ⟨"Foo".toList, [], "len:3;".toList, FieldValue.string "abc".toList⟩
          ["len:3".toList] [] ++
        [⟨GoError.errorf ("error with field ".toList ++ "Foo".toList)⟩] :=
  ⟨((C16_clause_shape
        ⟨"Foo".toList, [], "len:x;".toList, FieldValue.string "abc".toList⟩ []).2.1
        (by decide)).1 (Split "len:x;".toList ';') [] (by decide),
   (C16_clause_shape
        ⟨"Foo".toList, [], "len:3;".toList, FieldValue.string "abc".toList⟩ []).2.2.1
        (by decide) ["len:3".toList] [] [] (by decide)⟩

/-! ### Dispatch on the field type -/

/-- The clause loop over clauses that all split in two, pass `ValidTag` and
make `ValidValue` return nil adds nothing. -/
theorem clauseLoop_all_pass (field : StructField) (clauses : List GoString)
    (h : ∀ c ∈ clauses, ∃ key arg, Split (TrimSpace c) ':' = [key, arg] ∧
      ValidTag key arg = none ∧ ValidValue field key arg = none) :
    ∀ acc : ValidationErrors, clauseLoop field clauses acc = acc := by
  induction clauses with
  | nil => intro acc; rfl
  | cons c cs ih =>
    intro acc
    obtain ⟨key, arg, hs, hv, hvv⟩ := h c (List.mem_cons_self _ _)
    rw [clauseLoop_valid field c key arg cs acc hs hv, hvv]
    simpa using ih (fun d hd => h d (List.mem_cons_of_mem _ hd)) acc

/-- C17: for a field whose declared type is none of `string`, `int`,
`[]string`, `[]int` (say `bool`, `float64`, `int64` or a named string type),
`ValidValue` returns nil for every predicate and argument; the clauses of such
a field that split in two and pass `ValidTag` add no error, and when all its
clauses do the field contributes no error to `Validate`. -/
theorem C17_unsupported_type (field : StructField) (t : GoString)
    (htype : field.Value = FieldValue.other t) :
    (∀ key arg : GoString, ValidValue field key arg = none) ∧
    (∀ (val key arg : GoString) (rest : List GoString) (acc : ValidationErrors),
      Split (TrimSpace val) ':' = [key, arg] → ValidTag key arg = none →
      clauseLoop field (val :: rest) acc = clauseLoop field rest acc) ∧
    ((∀ c ∈ Split field.validate ';', validClause c = true) →
      field.IsExported = true →
      ∀ pre post : List StructField,
        fieldLoop (pre ++ field :: post) [] = fieldLoop pre [] ++ fieldLoop post []) := by
  have hV : ∀ key arg : GoString, ValidValue field key arg = none := by
    intro key arg
    unfold ValidValue
    rw [htype]
  refine ⟨hV, fun val key arg rest acc hs hv => ?_, fun hall hexp pre post => ?_⟩
  · rw [clauseLoop_valid field val key arg rest acc hs hv, hV]
    simp
  · have hloop : ∀ acc, clauseLoop field (Split field.validate ';') acc = acc :=
      clauseLoop_all_pass field _ (fun c hc => by
        obtain ⟨key, arg, h1, h2⟩ := validClause_split (hall c hc)
        exact ⟨key, arg, h1, h2, hV key arg⟩)
    have hstep : ∀ acc, fieldLoop (field :: post) acc = fieldLoop post acc := by
      intro acc
      by_cases htag : field.validate = []
      · rw [fieldLoop, if_neg (fun hc => hc.2 htag), if_pos htag]
      · rw [fieldLoop_exported field post _ hexp htag, hloop]
    rw [fieldLoop_append, hstep, fieldLoop_acc post (fieldLoop pre [])]

/-- C17 (witness): an exported `bool` field tagged `min:5;len:3`. -/
theorem C17_unsupported_type_witness :
    Validate (GoAny.value Kind.Struct
        ([] ++ ⟨"Flag".toList, [], "min:5;len:3".toList,
            FieldValue.other "bool".toList⟩ :: [])) =
      ValidateResult.nil := by
  have h := (C17_unsupported_type
      ⟨"Flag".toList, [], "min:5;len:3".toList, FieldValue.other "bool".toList⟩
      "bool".toList rfl).2.2 (by decide) (by decide) [] []
  simp only [Validate, if_true, h]
  rfl

/-! ### One error per clause on a slice -/

theorem findSome_first {α : Type} (f : α → Option GoError) (l : List α)
    (h : ∃ x ∈ l, f x ≠ none) :
    ∃ pre x post e, l = pre ++ x :: post ∧ (∀ y ∈ pre, f y = none) ∧
      f x = some e ∧ l.findSome? f = some e := by
  induction l with
  | nil =>
    obtain ⟨x, hx, _⟩ := h
    exact absurd hx (List.not_mem_nil _)
  | cons a as ih =>
    cases ha : f a with
    | some e => exact ⟨[], a, as, e, rfl, by simp, ha, by simp [List.findSome?_cons, ha]⟩
    | none =>
      have h1 : ∃ x ∈ as, f x ≠ none := by
        obtain ⟨x, hx, hne⟩ := h
        rcases List.mem_cons.mp hx with h2 | h2
        · rw [h2, ha] at hne; exact absurd rfl hne
        · exact ⟨x, h2, hne⟩
      obtain ⟨pre, x, post, e, hl, hpre, hx, hfind⟩ := ih h1
      refine ⟨a :: pre, x, post, e, by rw [hl]; rfl, ?_, hx, ?_⟩
      · intro y hy
        rcases List.mem_cons.mp hy with h2 | h2
        · rw [h2]; exact ha
        · exact hpre y h2
      · rw [List.findSome?_cons, ha]
        exact hfind

theorem findSome_none {α : Type} (f : α → Option GoError) (l : List α)
    (h : ∀ x ∈ l, f x = none) : l.findSome? f = none := by
  induction l with
  | nil => rfl
  | cons a as ih =>
    rw [List.findSome?_cons, h a (List.mem_cons_self _ _)]
    exact ih (fun x hx => h x (List.mem_cons_of_mem _ hx))

theorem any_isSome {α : Type} (f : α → Option GoError) (l : List α)
    (h : l.any (fun x => (f x).isSome) = true) : ∃ x ∈ l, f x ≠ none := by
  obtain ⟨x, hx, hs⟩ := List.any_eq_true.mp h
  refine ⟨x, hx, fun hn => ?_⟩
  rw [hn] at hs
  exact absurd hs (by simp)

/-- A failing slice field adds exactly one error. -/
theorem fieldLoop_failingSliceField (f : StructField) (h : failingSliceField f = true)
    (rest : List StructField) (acc : ValidationErrors) :
    ∃ e : ValidationError, fieldLoop (f :: rest) acc = fieldLoop rest (acc ++ [e]) := by
  unfold failingSliceField at h
  simp only [Bool.and_eq_true, Bool.not_eq_true', beq_eq_false_iff_ne, ne_eq] at h
  obtain ⟨⟨hexp, htag⟩, hbody⟩ := h
  rw [fieldLoop_exported f rest acc hexp htag]
  split at hbody
  · rename_i c hc
    rw [hc]
    simp only [Bool.and_eq_true] at hbody
    obtain ⟨_, hcl⟩ := hbody
    split at hcl
    · rename_i key arg hsplit
      cases hv : ValidTag key arg with
      | some err =>
        exact ⟨⟨err⟩, by rw [clauseLoop_rejected f c key arg [] acc err hsplit hv]⟩
      | none =>
        rw [hv] at hcl
        simp only [Option.isSome_none, Bool.false_or] at hcl
        rw [clauseLoop_valid f c key arg [] acc hsplit hv]
        have hvv : ∃ e, ValidValue f key arg = some e := by
          unfold ValidValue
          split at hcl
          · rename_i l hl
            rw [hl]
            simp only
            obtain ⟨pre, x, post, e, _, _, _, hfind⟩ :=
              findSome_first (fun x => ValidInt x key arg) l (any_isSome _ l hcl)
            exact ⟨fieldError f.Name e, by rw [ValidValueIntLoop_eq, hfind]; rfl⟩
          · rename_i l hl
            rw [hl]
            simp only
            obtain ⟨pre, x, post, e, _, _, _, hfind⟩ :=
              findSome_first (fun x => ValidString x key arg) l (any_isSome _ l hcl)
            exact ⟨fieldError f.Name e, by rw [ValidValueStringLoop_eq, hfind]; rfl⟩
          · exact absurd hcl (by simp)
        obtain ⟨e, he⟩ := hvv
        exact ⟨⟨e⟩, by rw [he]; rfl⟩
    · rename_i hne
      refine ⟨⟨GoError.errorf ("error with field ".toList ++ f.Name)⟩, ?_⟩
      rw [clauseLoop_malformed f c [] acc]
      intro hlen
      match hs : Split (TrimSpace c) ':', hlen with
      | [key, arg], _ => exact hne key arg hs
  · exact absurd hbody (by simp)

theorem fieldLoop_failing_length (fields : List StructField)
    (h : ∀ f ∈ fields, failingSliceField f = true) :
    ∀ acc : ValidationErrors,
      (fieldLoop fields acc).length = acc.length + fields.length := by
  induction fields with
  | nil => intro acc; rfl
  | cons f rest ih =>
    intro acc
    obtain ⟨e, he⟩ := fieldLoop_failingSliceField f (h f (List.mem_cons_self _ _)) rest acc
    rw [he, ih (fun g hg => h g (List.mem_cons_of_mem _ hg))]
    simp only [List.length_append, List.length_cons, List.length_nil]
    omega

/-- C18 (counterexample): on the exported field `Xs []int` with the value
`[1]` tagged `len:x;min:5`, the clause `min:5` is well-formed, passes
`ValidTag` and is violated by the element 1 (alone it yields the error
`number less than required`), yet `Validate` reports no error for it: the only
error is the syntax error of `len:x`, after which the field is left. -/
theorem C18_counterexample :
    validClause "min:5".toList = true ∧
    ValidInt 1 "min".toList "5".toList =
      some (GoError.errorf "number less than required".toList) ∧
    Validate (GoAny.value Kind.Struct
        [⟨"Xs".toList, [], "min:5".toList, FieldValue.intSlice [1]⟩]) =
      ValidateResult.errs
        [⟨fieldError "Xs".toList (GoError.errorf "number less than required".toList)⟩] ∧
    Validate (GoAny.value Kind.Struct
        [⟨"Xs".toList, [], "len:x;min:5".toList, FieldValue.intSlice [1]⟩]) =
      ValidateResult.errs [⟨GoError.ErrInvalidValidatorSyntax⟩] := by
  decide

/-- C18 (amended): on an exported `[]int` or `[]string` field, a clause that
splits in two and passes `ValidTag` makes `ValidValue` return the error of the
first violating element in sequence order when some element violates the
clause, and nil when none does; when the clause loop reaches the clause, that
is when the clauses before it in the field are syntactically valid, it appends
that single error, or nothing, and goes on with the next clause; the clauses
that follow a clause which is malformed or rejected by `ValidTag` are not
evaluated.  A record of
`k` failing slice fields (exported, one clause each, the clause syntax-invalid
or violated by at least one element) yields exactly `k` errors; the records of
the tests `wrong slice min` and `wrong slice max` yield 5 errors. -/
theorem C18_one_error_per_slice_clause :
    (∀ (field : StructField) (key arg : GoString) (l : List Int),
      field.Value = FieldValue.intSlice l →
      ((∃ x ∈ l, ValidInt x key arg ≠ none) →
        ∃ pre x post e, l = pre ++ x :: post ∧
          (∀ y ∈ pre, ValidInt y key arg = none) ∧ ValidInt x key arg = some e ∧
          ValidValue field key arg = some (fieldError field.Name e)) ∧
      ((∀ x ∈ l, ValidInt x key arg = none) → ValidValue field key arg = none)) ∧
    (∀ (field : StructField) (key arg : GoString) (l : List GoString),
      field.Value = FieldValue.stringSlice l →
      ((∃ x ∈ l, ValidString x key arg ≠ none) →
        ∃ pre x post e, l = pre ++ x :: post ∧
          (∀ y ∈ pre, ValidString y key arg = none) ∧ ValidString x key arg = some e ∧
          ValidValue field key arg = some (fieldError field.Name e)) ∧
      ((∀ x ∈ l, ValidString x key arg = none) → ValidValue field key arg = none)) ∧
    (∀ (field : StructField) (before : List GoString) (val key arg : GoString)
        (rest : List GoString) (acc : ValidationErrors),
      (∀ d ∈ before, validClause d = true) →
      Split (TrimSpace val) ':' = [key, arg] → ValidTag key arg = none →
      clauseLoop field (before ++ val :: rest) acc =
        clauseLoop field rest
          (clauseLoop field before acc ++
            ((ValidValue field key arg).map ValidationError.mk).toList) ∧
      ((ValidValue field key arg).map ValidationError.mk).toList.length ≤ 1) ∧
    (∀ (field : StructField) (before : List GoString) (bad : GoString)
        (rest : List GoString) (acc : ValidationErrors),
      validClause bad = false →
      clauseLoop field (before ++ bad :: rest) acc =
        clauseLoop field (before ++ [bad]) acc) ∧
    (∀ (field : StructField) (fields : List StructField) (acc : ValidationErrors),
      field.IsExported = true → field.validate ≠ [] →
      fieldLoop (field :: fields) acc =
        fieldLoop fields (clauseLoop field (Split field.validate ';') acc)) ∧
    (∀ fields : List StructField, (∀ f ∈ fields, failingSliceField f = true) →
      errorCount (Validate (GoAny.value Kind.Struct fields)) = fields.length) ∧
    errorCount (Validate (GoAny.value Kind.Struct wrongSliceMin)) = 5 ∧
    errorCount (Validate (GoAny.value Kind.Struct wrongSliceMax)) = 5 := by
  refine ⟨fun field key arg l hl => ⟨fun hex => ?_, fun hall => ?_⟩,
    fun field key arg l hl => ⟨fun hex => ?_, fun hall => ?_⟩,
    fun field before val key arg rest acc hbefore hs hv => ⟨?_, ?_⟩,
    fun field before bad rest acc hbad =>
      clauseLoop_stops_at_invalid field bad rest hbad before acc,
    fun field fields acc hexp htag => fieldLoop_exported field fields acc hexp htag,
    fun fields hall => ?_, by decide, by decide⟩
  · obtain ⟨pre, x, post, e, h1, h2, h3, hfind⟩ :=
      findSome_first (fun x => ValidInt x key arg) l hex
    refine ⟨pre, x, post, e, h1, h2, h3, ?_⟩
    unfold ValidValue
    rw [hl]
    simp only
    rw [ValidValueIntLoop_eq, hfind]
    rfl
  · unfold ValidValue
    rw [hl]
    simp only
    rw [ValidValueIntLoop_eq, findSome_none _ l hall]
    rfl
  · obtain ⟨pre, x, post, e, h1, h2, h3, hfind⟩ :=
      findSome_first (fun x => ValidString x key arg) l hex
    refine ⟨pre, x, post, e, h1, h2, h3, ?_⟩
    unfold ValidValue
    rw [hl]
    simp only
    rw [ValidValueStringLoop_eq, hfind]
    rfl
  · unfold ValidValue
    rw [hl]
    simp only
    rw [ValidValueStringLoop_eq, findSome_none _ l hall]
    rfl
  · rw [clauseLoop_through_valid field before (val :: rest) hbefore,
      clauseLoop_valid field val key arg rest _ hs hv]
  · cases ValidValue field key arg <;> simp
  · have hlen := fieldLoop_failing_length fields hall []
    simp only [List.length_nil, Nat.zero_add] at hlen
    unfold Validate
    simp only [if_true]
    by_cases hpos : (fieldLoop fields []).length > 0
    · rw [if_pos hpos]
      exact hlen
    · rw [if_neg hpos]
      simp only [errorCount]
      omega

/-- C18 (witness): the five fields of the test `wrong slice min`, of which
`MinA`, `MinC` hold two failing elements, yield five errors; on the field
`MinC` the clause `min:5` reached after the valid clause `max:20` adds its one
error. -/
theorem C18_one_error_per_slice_clause_witness :
    errorCount (Validate (GoAny.value Kind.Struct wrongSliceMin)) =
      wrongSliceMin.length ∧
    ValidValue ⟨"MinC".toList, [], "min:5".toList, FieldValue.intSlice [12, 3, 0]⟩
        "min".toList "5".toList ≠ none ∧
    clauseLoop ⟨"MinC".toList, [], "max:20;min:5".toList, FieldValue.intSlice [12, 3, 0]⟩
        (["max:20".toList] ++ "min:5".toList :: []) [] =
      [⟨fieldError "MinC".toList (GoError.errorf "number less than required".toList)⟩] :=
  ⟨C18_one_error_per_slice_clause.2.2.2.2.2.1 wrongSliceMin (by decide),
   by
    obtain ⟨_, _, _, e, _, _, _, h⟩ :=
      (C18_one_error_per_slice_clause.1
        ⟨"MinC".toList, [], "min:5".toList, FieldValue.intSlice [12, 3, 0]⟩
        "min".toList "5".toList [12, 3, 0] rfl).1 ⟨3, by decide, by decide⟩
    rw [h]
    exact fun hn => Option.noConfusion hn,
   ((C18_one_error_per_slice_clause.2.2.1
      ⟨"MinC".toList, [], "max:20;min:5".toList, FieldValue.intSlice [12, 3, 0]⟩
      ["max:20".toList] "min:5".toList "min".toList "5".toList [] []
      (by decide) (by decide) (by decide)).1).trans (by decide)⟩

/-! ### The evaluators behind `ValidTag` -/

/-- C19: an argument that `ValidTag` accepts is parsed again by the evaluators
without error and to the same number (`int` being 64 bits wide): after
`ValidTag("len", a) = nil`, `strconv.Atoi(a)` succeeds with a number `≥ 0`;
after `ValidTag("min", a) = nil` or `ValidTag("max", a) = nil`, both
`strconv.Atoi(a)` and `strconv.ParseInt(a, 10, 64)` succeed with the same
number.  A clause that `ValidTag` rejects ends the clause loop before
`ValidValue` is called, so inside `Validate` no evaluator compares with the
value of a failed parse. -/
theorem C19_evaluators_parse_cleanly (a : GoString) :
    (ValidTag "len".toList a = none →
      ∃ n : Int, 0 ≤ n ∧ Atoi a = (n, none)) ∧
    (∀ key : GoString, key = "min".toList ∨ key = "max".toList →
      ValidTag key a = none →
      ∃ n : Int, Atoi a = (n, none) ∧ ParseInt a = (n, none)) ∧
    (∀ (field : StructField) (val key : GoString) (rest : List GoString)
        (acc : ValidationErrors) (err : GoError),
      Split (TrimSpace val) ':' = [key, a] → ValidTag key a = some err →
      clauseLoop field (val :: rest) acc = acc ++ [⟨err⟩]) := by
  refine ⟨fun h => ?_, fun key hkey h => ?_, fun field val key rest acc err hs hv =>
    clauseLoop_rejected field val key a rest acc err hs hv⟩
  · rw [ValidTag_len] at h
    cases hp : parsesAsInt a with
    | none => rw [hp] at h; exact absurd h (by simp)
    | some n =>
      rw [hp] at h
      simp only at h
      refine ⟨n, ?_, (Atoi_spec a).1 n hp⟩
      by_contra hn
      rw [if_pos (by omega)] at h
      exact absurd h (by simp)
  · have hform : ValidTag key a =
        match parsesAsInt a with
        | some _ => none
        | none => some GoError.ErrInvalidValidatorSyntax := by
      rcases hkey with hk | hk
      · rw [hk]; exact ValidTag_min a
      · rw [hk]; exact ValidTag_max a
    rw [hform] at h
    cases hp : parsesAsInt a with
    | none => rw [hp] at h; exact absurd h (by simp)
    | some n => exact ⟨n, (Atoi_spec a).1 n hp, (ParseInt_spec a).1 n hp⟩

/-- C19 (witness): the arguments `20` under `len` and `-12` under `min`. -/
theorem C19_evaluators_parse_cleanly_witness :
    (∃ n : Int, 0 ≤ n ∧ Atoi "20".toList = (n, none)) ∧
    (∃ n : Int, Atoi "-12".toList = (n, none) ∧ ParseInt "-12".toList = (n, none)) :=
  ⟨(C19_evaluators_parse_cleanly "20".toList).1 (by decide),
   (C19_evaluators_parse_cleanly "-12".toList).2.1 "min".toList (Or.inl rfl) (by decide)⟩

/-- C20: `ValidInt(value, "len", a)` returns nil for every value and argument,
so on an `int` or `[]int` field a clause `len:a` whose argument `ValidTag`
accepts adds no error whatever the value or the elements, while a clause
`len:a` whose argument `ValidTag` rejects adds `ErrInvalidValidatorSyntax`. -/
theorem C20_len_not_enforced_on_int (a : GoString) :
    (∀ value : Int, ValidInt value "len".toList a = none) ∧
    (∀ field : StructField,
      (∃ n, field.Value = FieldValue.int n) ∨ (∃ l, field.Value = FieldValue.intSlice l) →
      ValidValue field "len".toList a = none ∧
      ∀ (val : GoString) (rest : List GoString) (acc : ValidationErrors),
        Split (TrimSpace val) ':' = ["len".toList, a] →
        (ValidTag "len".toList a = none →
          clauseLoop field (val :: rest) acc = clauseLoop field rest acc) ∧
        (ValidTag "len".toList a ≠ none →
          clauseLoop field (val :: rest) acc =
            acc ++ [⟨GoError.ErrInvalidValidatorSyntax⟩])) := by
  have hI : ∀ value : Int, ValidInt value "len".toList a = none := by
    intro value
    unfold ValidInt
    rw [if_neg (by decide), if_neg (by decide), if_neg (by decide)]
  refine ⟨hI, fun field hty => ?_⟩
  have hV : ValidValue field "len".toList a = none := by
    unfold ValidValue
    rcases hty with ⟨n, hn⟩ | ⟨l, hl⟩
    · rw [hn]
      simp only [hI]
    · rw [hl]
      simp only
      rw [ValidValueIntLoop_eq, findSome_none _ l (fun x _ => hI x)]
      rfl
  refine ⟨hV, fun val rest acc hs => ⟨fun hv => ?_, fun hv => ?_⟩⟩
  · rw [clauseLoop_valid field val _ a rest acc hs hv, hV]
    simp
  · have hrej : ValidTag "len".toList a = some GoError.ErrInvalidValidatorSyntax := by
      rw [ValidTag_len] at hv ⊢
      cases hp : parsesAsInt a with
      | none => rfl
      | some n =>
        rw [hp] at hv
        simp only at hv ⊢
        by_cases hn : n < 0
        · rw [if_pos hn]
        · rw [if_neg hn] at hv
          exact absurd rfl hv
    exact clauseLoop_rejected field val _ a rest acc _ hs hrej

/-- C20 (witness): an exported `int` field with value 7 tagged `len:3` adds no
error, and the same field tagged `len:x` adds the syntax error. -/
theorem C20_len_not_enforced_on_int_witness :
    clauseLoop ⟨"Age".toList, [], "len:3".toList, FieldValue.int 7⟩
        ["len:3".toList] [] =
      clauseLoop ⟨"Age".toList, [], "len:3".toList, FieldValue.int 7⟩ [] [] ∧
    clauseLoop ⟨"Age".toList, [], "len:x".toList, FieldValue.int 7⟩
        ["len:x".toList] [] =
      [] ++ [⟨GoError.ErrInvalidValidatorSyntax⟩] :=
  ⟨(((C20_len_not_enforced_on_int "3".toList).2
        ⟨"Age".toList, [], "len:3".toList, FieldValue.int 7⟩ (Or.inl ⟨7, rfl⟩)).2
        "len:3".toList [] [] (by decide)).1 (by decide),
   (((C20_len_not_enforced_on_int "x".toList).2
        ⟨"Age".toList, [], "len:x".toList, FieldValue.int 7⟩ (Or.inl ⟨7, rfl⟩)).2
        "len:x".toList [] [] (by decide)).2 (by decide)⟩

end Validator
